import Mathlib

/-!
Shallow embedding of the CloudPaste virtual-filesystem engine: the FileSystem
facade (capability gate, batch coordination, search validation) and the fs
service layer (mount resolution, directory cache invalidation, the S3
createDirectory / getFileInfo / uploadFile / updateFile / renameItem /
removeItem algorithms).

Modelling conventions.  JavaScript strings are modelled at the character
level (surrogate pairs are not distinguished).  Timestamp fields, random id
generation and logging, on which no verified property depends, are elided.
Network and database effects are represented either by explicit stub inputs
or by an event trace returned next to the result, so that statements of the
form "fails before issuing any storage call" are about the trace.  Helpers of
the repository that are not part of the provided sources are modelled from
the specification and marked as such in their doc comments.
-/

namespace CloudPaste

/-! ## JavaScript string primitives used by the source -/

/-- JS s.startsWith(p), at character granularity. -/
def jsStartsWith (s p : String) : Bool := p.data.isPrefixOf s.data

/-- JS s.endsWith(p). -/
def jsEndsWith (s p : String) : Bool := p.data.isSuffixOf s.data

/-- JS s.includes(c) for a one-character needle. -/
def jsIncludesChar (s : String) (c : Char) : Bool := s.data.contains c

/-- JS s.includes(sub) for a general needle. -/
def jsIncludes (s sub : String) : Bool :=
  (List.range (s.data.length + 1)).any (fun i => sub.data.isPrefixOf (s.data.drop i))

/-- JS s.substring(0, n): character take. -/
def jsTake (s : String) (n : Nat) : String := String.mk (s.data.take n)

/-- JS s.substring(n): character drop. -/
def jsDrop (s : String) (n : Nat) : String := String.mk (s.data.drop n)

/-- JS s.length as a character count. -/
def jsLen (s : String) : Nat := s.data.length

/-- JS s.trim(): strip whitespace from both ends. -/
def jsTrim (s : String) : String :=
  String.mk (((s.data.dropWhile Char.isWhitespace).reverse.dropWhile Char.isWhitespace).reverse)

/-- Core of the parent-directory computations: everything up to and including
the last slash of the character list, or [] when it has no slash. -/
def dropAfterLastSlashL (l : List Char) : List Char :=
  (l.reverse.dropWhile (fun c => c != '/')).reverse

/-- JS s.substring(0, s.lastIndexOf("/") + 1): the segment of s up to and
including the last slash, "" when s has no slash. -/
def takeThroughLastSlash (s : String) : String :=
  String.mk (dropAfterLastSlashL s.data)

/-- JS s.substring(0, s.lastIndexOf("/", s.length - 2) + 1): as above but the
final character of s is excluded from the search, which is exactly the same
computation performed on s without its last character. -/
def takeThroughLastSlashBeforeEnd (s : String) : String :=
  String.mk (dropAfterLastSlashL s.data.dropLast)

/-- JS s.split("/"): split at every slash, keeping empty segments, as a
structural fold (the accumulator always carries at least one segment). -/
def jsSplitSlash (s : String) : List String :=
  s.data.foldr
    (fun c acc =>
      match acc with
      | [] => [""]
      | seg :: rest => if c = '/' then "" :: seg :: rest else String.mk (c :: seg.data) :: rest)
    [""]

/-- JS p.split("/").filter(Boolean).pop() with a fallback value. -/
def lastNonEmptySegmentOr (p dflt : String) : String :=
  (((jsSplitSlash p).filter (fun x => x != "")).getLast?).getD dflt

/-! ## HTTP exceptions (HTTPException with an ApiStatus code) -/

/-- HTTPException carrying the numeric ApiStatus and the message. -/
structure HTTPException where
  status : Nat
  message : String
deriving DecidableEq, Repr

/-! ## Capabilities and the FileSystem facade gate (FileSystem class) -/

/-- The closed capability set (interfaces/capabilities). -/
inductive Capability
  | reader
  | writer
  | atomic
  | presigned
  | multipart
deriving DecidableEq, Repr

/-- A storage driver as the facade sees it: a type tag and the advertised
capability set. -/
structure Driver where
  driverType : String
  capabilities : List Capability
deriving DecidableEq, Repr

/-- driver.hasCapability(c). -/
def Driver.hasCapability (d : Driver) (c : Capability) : Bool :=
  d.capabilities.contains c

/-- The user-facing FileSystem facade methods that gate on a capability. -/
inductive FsOp
  | listDirectory
  | getFileInfo
  | downloadFile
  | uploadFile
  | uploadStream
  | createDirectory
  | batchRemoveItems
  | updateFile
  | renameItem
  | copyItem
  | handleCrossStorageCopy
  | generatePresignedUrl
  | initializeFrontendMultipartUpload
  | completeFrontendMultipartUpload
  | abortFrontendMultipartUpload
  | listMultipartUploads
  | listMultipartParts
  | refreshMultipartUrls
  | abortBackendMultipartUpload
deriving DecidableEq, Repr

/-- The capability each facade method tests with driver.hasCapability,
transcribed method by method from the FileSystem class: READER for
listDirectory/getFileInfo/downloadFile, WRITER for uploadFile/uploadStream/
createDirectory/batchRemoveItems/updateFile, ATOMIC for renameItem/copyItem/
handleCrossStorageCopy, PRESIGNED for generatePresignedUrl, MULTIPART for the
multipart methods. -/
def requiredCapability : FsOp → Capability
  | .listDirectory => .reader
  | .getFileInfo => .reader
  | .downloadFile => .reader
  | .uploadFile => .writer
  | .uploadStream => .writer
  | .createDirectory => .writer
  | .batchRemoveItems => .writer
  | .updateFile => .writer
  | .renameItem => .atomic
  | .copyItem => .atomic
  | .handleCrossStorageCopy => .atomic
  | .generatePresignedUrl => .presigned
  | .initializeFrontendMultipartUpload => .multipart
  | .completeFrontendMultipartUpload => .multipart
  | .abortFrontendMultipartUpload => .multipart
  | .listMultipartUploads => .multipart
  | .listMultipartParts => .multipart
  | .refreshMultipartUrls => .multipart
  | .abortBackendMultipartUpload => .multipart

/-- The Unimplemented message of the facade, per capability. -/
def capabilityErrorMessage (driverType : String) : Capability → String
  | .reader => "存储驱动 " ++ driverType ++ " 不支持读取操作"
  | .writer => "存储驱动 " ++ driverType ++ " 不支持写入操作"
  | .atomic => "存储驱动 " ++ driverType ++ " 不支持原子操作"
  | .presigned => "存储驱动 " ++ driverType ++ " 不支持预签名URL"
  | .multipart => "存储驱动 " ++ driverType ++ " 不支持分片上传"

/-- The outcome of one facade call: the returned value or raised exception,
plus the storage calls the delegated driver performed. -/
structure OpOutcome (α : Type) where
  result : Except HTTPException α
  storageCalls : List String

/-- The capability gate common to every facade method: after mount resolution
(a database lookup, not storage I/O), the facade checks
driver.hasCapability(required) and either raises NOT_IMPLEMENTED (501) without
touching storage, or delegates to the driver unchanged. -/
def FileSystem.dispatchOp {α : Type} (d : Driver) (op : FsOp) (driverCall : OpOutcome α) :
    OpOutcome α :=
  if d.hasCapability (requiredCapability op) then driverCall
  else
    { result := .error ⟨501, capabilityErrorMessage d.driverType (requiredCapability op)⟩,
      storageCalls := [] }

/-! ## batchRemoveItems (service layer and facade) -/

/-- The aggregate result of a batch removal. -/
structure BatchRemoveResult where
  success : Nat
  failed : List (String × String)
deriving DecidableEq, Repr

/-- batchRemoveItems of the service layer: iterate the paths in order; each
path either increments success or appends one (path, message) failure record.
The per-path removeItem, which performs the I/O, is a parameter. -/
def batchRemoveItems (removeItem : String → Except HTTPException Unit)
    (paths : List String) : BatchRemoveResult :=
  paths.foldl
    (fun result path =>
      match removeItem path with
      | .ok _ => { result with success := result.success + 1 }
      | .error e => { result with failed := result.failed ++ [(path, e.message)] })
    ⟨0, []⟩

/-- FileSystem.batchRemoveItems: an empty path list short-circuits to
(0, []); otherwise the driver of the first path is resolved, the WRITER
capability is checked, and the whole list is handed to the driver batch. -/
def FileSystem.batchRemoveItems (d : Driver)
    (removeItem : String → Except HTTPException Unit) (paths : List String) :
    Except HTTPException BatchRemoveResult :=
  if paths.isEmpty then .ok ⟨0, []⟩
  else if !(d.hasCapability .writer) then
    .error ⟨501, capabilityErrorMessage d.driverType .writer⟩
  else .ok (CloudPaste.batchRemoveItems removeItem paths)

/-! ## searchFiles parameter validation (FileSystem.searchFiles) -/

/-- One run of searchFiles: the returned value or exception, plus the
collaborators (search cache, mount table, drivers) consulted, in order. -/
structure SearchRun (α : Type) where
  result : Except HTTPException α
  consulted : List String

/-- The validation preamble of FileSystem.searchFiles, in source order: query
length, scope, limit bounds, offset sign.  Everything after validation (the
search-cache lookup, mount fan-out, merge, pagination) is abstracted as the
continuation rest; the four checks run before any of it. -/
def searchFiles {α : Type} (query scope : String) (limit offset : Int)
    (rest : SearchRun α) : SearchRun α :=
  if query == "" || jsLen (jsTrim query) < 2 then
    { result := .error ⟨400, "搜索查询至少需要2个字符"⟩, consulted := [] }
  else if !(["global", "mount", "directory"].contains scope) then
    { result := .error ⟨400, "无效的搜索范围"⟩, consulted := [] }
  else if limit < 1 || 200 < limit then
    { result := .error ⟨400, "limit参数必须在1-200之间"⟩, consulted := [] }
  else if offset < 0 then
    { result := .error ⟨400, "offset参数不能为负数"⟩, consulted := [] }
  else rest

/-! ## Mounts and mount resolution (listDirectory of the service layer) -/

/-- A storage mount row, with the fields the engine reads. -/
structure Mount where
  id : String
  name : String
  mount_path : String
  storage_type : String
  storage_config_id : String
  cache_ttl : Int
  is_active : Bool
  owner : String
deriving DecidableEq, Repr

/-- Modelled from the spec: getMountsByAdmin (storageMountService.js, not
under src/) returns the active mounts owned by the admin principal. -/
def getMountsByAdmin (allMounts : List Mount) (userId : String) : List Mount :=
  allMounts.filter (fun m => m.is_active && m.owner == userId)

/-- Modelled from the spec: getMountsByApiKey (storageMountService.js, not
under src/) returns the active mounts whose id is in the permitted set of the
API key. -/
def getMountsByApiKey (allMounts : List Mount) (permittedMountIds : List String) :
    List Mount :=
  allMounts.filter (fun m => m.is_active && permittedMountIds.contains m.id)

/-- The authenticated principal handed to the engine. -/
inductive UserIdent
  | admin (userId : String)
  | apiKey (keyId : String) (permittedMountIds : List String)

/-- The mount table visible to a principal (dispatch on userType). -/
def mountsForUser (allMounts : List Mount) : UserIdent → List Mount
  | .admin uid => getMountsByAdmin allMounts uid
  | .apiKey _ permitted => getMountsByApiKey allMounts permitted

/-- normalizePath of the service layer: ensure a leading slash and, for
directory references, a trailing slash. -/
def normalizePath (path : String) (isDirectory : Bool) : String :=
  let path := if jsStartsWith path "/" then path else "/" ++ path
  if isDirectory then (if jsEndsWith path "/" then path else path ++ "/") else path

/-- Stable insertion into a list ordered by mount-path length descending: the
inserted mount goes after every strictly longer mount path and before equal
ones, preserving the original relative order of equals. -/
def sortedInsertByLenDesc (m : Mount) : List Mount → List Mount
  | [] => [m]
  | x :: xs =>
    if jsLen m.mount_path < jsLen x.mount_path then x :: sortedInsertByLenDesc m xs
    else m :: x :: xs

/-- mounts.sort by mount_path length descending; JS sort is stable (its
algorithm is unspecified), modelled with a stable insertion sort. -/
def sortMountsByPathLength : List Mount → List Mount
  | [] => []
  | m :: rest => sortedInsertByLenDesc m (sortMountsByPathLength rest)

/-- The leading-slash normalization applied to the mount path inside the
resolution loop. -/
def normalizedMountPath (m : Mount) : String :=
  if jsStartsWith m.mount_path "/" then m.mount_path else "/" ++ m.mount_path

/-- The selection condition of the resolution loop: the normalized request
path equals mountPath ++ "/" or starts with mountPath ++ "/". -/
def mountSelCond (m : Mount) (path : String) : Bool :=
  path == normalizedMountPath m ++ "/" || jsStartsWith path (normalizedMountPath m ++ "/")

/-- The resolution loop of listDirectory: walk the sorted mounts and take the
first one satisfying the selection condition; the sub path is the remainder,
given a leading slash when missing. -/
def findMatchingMount (path : String) : List Mount → Option (Mount × String)
  | [] => none
  | m :: rest =>
    if mountSelCond m path then
      let raw := jsDrop path (jsLen (normalizedMountPath m))
      some (m, if jsStartsWith raw "/" then raw else "/" ++ raw)
    else
      findMatchingMount path rest

/-- One entry of a directory listing (timestamps elided). -/
structure FsItem where
  name : String
  path : String
  isDirectory : Bool
  isVirtual : Bool := false
  isMount : Bool := false
  mount_id : Option String := none
  size : Option Nat := none
  etag : Option String := none
deriving DecidableEq, Repr

/-- A directory listing result (timestamps elided). -/
structure DirListing where
  path : String
  isRoot : Bool
  isVirtual : Bool
  mount_id : Option String := none
  storage_type : Option String := none
  items : List FsItem := []
deriving DecidableEq, Repr

/-- getVirtualDirectoryListing: synthesize a listing for a path no mount
covers, from mount entries located exactly at the path and from the first
path segment of mounts strictly below it (a JS Set keeps insertion order and
deduplicates, modelled by the contains check). -/
def getVirtualDirectoryListing (mounts : List Mount) (path : String) : DirListing :=
  let path := normalizePath path true
  let step := mounts.foldl
    (fun (acc : List String × List FsItem) m =>
      let mountPath := if jsStartsWith m.mount_path "/" then m.mount_path else "/" ++ m.mount_path
      if mountPath ++ "/" == path || mountPath == path then
        (acc.1, acc.2 ++
          [{ name := if m.name != "" then m.name
                 else (((jsSplitSlash mountPath).filter (fun x => x != "")).getLast?).getD m.id,
             path := mountPath, isDirectory := true, isMount := true,
             mount_id := some m.id }])
      else if jsStartsWith mountPath path then
        let relativePath := jsDrop mountPath (jsLen path)
        let firstDir := ((jsSplitSlash relativePath).head?).getD ""
        if firstDir != "" && !(acc.1.contains firstDir) then (acc.1 ++ [firstDir], acc.2)
        else acc
      else acc)
    ([], [])
  { path := path, isRoot := path == "/", isVirtual := true,
    items :=
      (step.1.map (fun d =>
        { name := d, path := path ++ d ++ "/", isDirectory := true, isVirtual := true })) ++
      step.2 }

/-- What listDirectory resolves a path to: a mount with a sub path (the S3
branch), or a virtual listing. -/
inductive Resolution
  | real (m : Mount) (subPath : String)
  | virtualDir (listing : DirListing)
deriving DecidableEq, Repr

/-- The resolution phase of listDirectory: normalize the path as a directory,
fetch the mounts of the principal, sort by mount-path length descending, scan
for the first match; fall back to the virtual listing. -/
def listDirectoryResolve (allMounts : List Mount) (user : UserIdent) (path : String) :
    Resolution :=
  let path := normalizePath path true
  let mounts := sortMountsByPathLength (mountsForUser allMounts user)
  match findMatchingMount path mounts with
  | some (m, s) => .real m s
  | none => .virtualDir (getVirtualDirectoryListing mounts path)

/-- The matching condition of claim C2 on the normalized path. -/
def mountMatches (m : Mount) (p : String) : Prop :=
  m.mount_path = p ∨ jsStartsWith p (m.mount_path ++ "/") = true

/-- Ownership of a mount by a principal. -/
def ownedBy (user : UserIdent) (m : Mount) : Prop :=
  match user with
  | .admin uid => m.owner = uid
  | .apiKey _ permitted => m.id ∈ permitted

/-! ## DirectoryCache and the invalidation performed by the mutations -/

/-- The directory cache, modelled by its key set: the (mountId, subPath)
pairs that currently hold an entry.  Modelled from the spec (§4.4):
utils/DirectoryCache.js is not under src/; presence of keys is all the
verified properties depend on. -/
abbrev DirCache := List (String × String)

/-- Modelled from the spec: DirectoryCache.invalidate removes the entry keyed
(mountId, subPath). -/
def DirCache.invalidate (c : DirCache) (mountId subPath : String) : DirCache :=
  c.filter (fun e => !(e.1 == mountId && e.2 == subPath))

/-- The chain of directories walked by invalidatePathAndAncestors: the path
itself, then repeatedly its parent directory, ending at "/".  Fuel bounds the
walk; the character length of the path suffices. -/
def ancestorWalk : Nat → String → List String
  | 0, p => [p]
  | fuel + 1, p =>
    if p == "/" then ["/"] else p :: ancestorWalk fuel (takeThroughLastSlashBeforeEnd p)

/-- Modelled from the spec: DirectoryCache.invalidatePathAndAncestors walks
from subPath up to "/" and invalidates each directory along the way (§4.4). -/
def DirCache.invalidatePathAndAncestors (c : DirCache) (mountId subPath : String) :
    DirCache :=
  let walk := ancestorWalk (jsLen subPath) subPath
  c.filter (fun e => !(e.1 == mountId && walk.contains e.2))

/-- Concatenation of path segments, each followed by a slash:
segsJoin [a, b] = "a/b/". -/
def segsJoin : List String → String
  | [] => ""
  | seg :: rest => seg ++ "/" ++ segsJoin rest

/-- The directory sub path spelled by a list of segments:
dirOfSegments [a, b] = "/a/b/". -/
def dirOfSegments (segs : List String) : String :=
  "/" ++ segsJoin segs

/-- Well-formed segment lists: no segment contains a slash. -/
def segsWf (segs : List String) : Prop := ∀ x ∈ segs, ∀ c ∈ x.data, c ≠ '/'

/-- A well-formed file name: non-empty and slash-free. -/
def nameWf (n : String) : Prop := n ≠ "" ∧ ∀ c ∈ n.data, c ≠ '/'

/-- The cache effect of a successful direct uploadFile: invalidate the parent
chain of the file sub path, or the root entry for a root-level file. -/
def uploadInvalidate (c : DirCache) (mountId subPath : String) : DirCache :=
  if subPath != "/" && jsIncludesChar subPath '/' then
    DirCache.invalidatePathAndAncestors c mountId (takeThroughLastSlash subPath)
  else
    DirCache.invalidate c mountId "/"

/-- The cache effect of a successful createDirectory: invalidate the parent
chain of the directory sub path; nothing for the root. -/
def createDirInvalidate (c : DirCache) (mountId subPath : String) : DirCache :=
  if subPath != "/" then
    DirCache.invalidatePathAndAncestors c mountId (takeThroughLastSlashBeforeEnd subPath)
  else c

/-- The cache effect of a successful removeItem: for a directory, first
invalidate its own entry; then invalidate the parent chain (the parent of a
directory ignores the trailing slash), or the root entry for a root-level
file. -/
def removeInvalidate (c : DirCache) (mountId subPath : String) (isDirectory : Bool) :
    DirCache :=
  let c := if isDirectory then DirCache.invalidate c mountId subPath else c
  if subPath != "/" && jsIncludesChar subPath '/' then
    DirCache.invalidatePathAndAncestors c mountId
      (if isDirectory then takeThroughLastSlashBeforeEnd subPath
       else takeThroughLastSlash subPath)
  else if !isDirectory then DirCache.invalidate c mountId "/"
  else c

/-- The cache effect of a successful renameItem: for directories, invalidate
the old and new entries themselves; then invalidate the old parent chain and
the new parent chain (each with the root-file special case). -/
def renameInvalidate (c : DirCache) (mountId oldSub newSub : String)
    (oldIsDir newIsDir : Bool) : DirCache :=
  let c :=
    if oldIsDir then
      DirCache.invalidate (DirCache.invalidate c mountId oldSub) mountId newSub
    else c
  let c :=
    if oldSub != "/" && jsIncludesChar oldSub '/' then
      DirCache.invalidatePathAndAncestors c mountId
        (if oldIsDir then takeThroughLastSlashBeforeEnd oldSub
         else takeThroughLastSlash oldSub)
    else if !oldIsDir then DirCache.invalidate c mountId "/"
    else c
  if newSub != "/" && jsIncludesChar newSub '/' then
    DirCache.invalidatePathAndAncestors c mountId
      (if newIsDir then takeThroughLastSlashBeforeEnd newSub
       else takeThroughLastSlash newSub)
  else if !newIsDir then DirCache.invalidate c mountId "/"
  else c

/-- The cache effect of a successful updateFile: guarded by cache_ttl > 0,
invalidate the parent chain of the file sub path; no root special case. -/
def updateInvalidate (c : DirCache) (mountId subPath : String) (cacheTtl : Int) :
    DirCache :=
  if cacheTtl > 0 then
    if subPath != "/" && jsIncludesChar subPath '/' then
      DirCache.invalidatePathAndAncestors c mountId (takeThroughLastSlash subPath)
    else c
  else c

/-! ## The S3 object store model and createDirectory -/

/-- A stored object: content type and body. -/
structure S3Obj where
  contentType : String
  body : String
deriving DecidableEq, Repr

/-- A bucket as an association list from object keys to objects. -/
abbrev Bucket := List (String × S3Obj)

/-- HeadObject: look the key up. -/
def headObject (b : Bucket) (key : String) : Option S3Obj :=
  (b.find? (fun e => e.1 == key)).map (fun e => e.2)

/-- Modelled from the spec: checkDirectoryExists (webdav utils, not under
src/) — a directory exists when its placeholder object is present or a
listing under the prefix is non-empty (§4.6). -/
def checkDirectoryExists (b : Bucket) (dirKey : String) : Bool :=
  (headObject b dirKey).isSome || b.any (fun e => jsStartsWith e.1 dirKey)

/-- createDirectory of the service layer, from the point the normalized S3
key is in hand: when the key has more than one segment, require the parent
directory (409 otherwise); HEAD the key and fail 409 when present; otherwise
PUT a zero-byte object with content type application/x-directory. -/
def createDirectoryS3 (b : Bucket) (key : String) : Except HTTPException Bucket :=
  let parentMissing :=
    decide (1 < ((jsSplitSlash key).filter (fun seg => seg != "")).length) &&
      !(checkDirectoryExists b (takeThroughLastSlashBeforeEnd key))
  if parentMissing then .error ⟨409, "父目录不存在"⟩
  else if (headObject b key).isSome then .error ⟨409, "目录已存在"⟩
  else .ok ((key, ⟨"application/x-directory", ""⟩) :: b)

/-! ## Traced S3 calls, getFileInfo, uploadFile, updateFile, renameItem -/

/-- The storage and database calls an operation may issue, as trace events. -/
inductive S3Event
  | headCmd (key : String)
  | getCmd (key : String) (range : Option String)
  | listCmd (keyPfx : String) (maxKeys : Option Nat)
  | putCmd (key contentType : String)
  | copyCmd (src dst : String)
  | deleteCmd (key : String)
  | releaseBody
  | dbInsertFileRecord (key : String)
  | resolveMountCall (path : String)
deriving DecidableEq, Repr

/-- A provider error as the code inspects it: optional HTTP status,
error name, message. -/
structure S3ErrInfo where
  status : Option Nat
  name : String
  msg : String
deriving DecidableEq, Repr

/-- Object metadata as returned by HEAD or GET ("" content type means the
field was absent; etags are modelled with quotes already stripped). -/
structure ObjMeta where
  contentType : String
  contentLength : Nat
  etag : Option String
deriving DecidableEq, Repr

/-- The result of getFileInfo (timestamps elided). -/
structure FileInfo where
  path : String
  name : String
  isDirectory : Bool
  size : Nat
  contentType : String
  etag : Option String
  mount_id : String
  storage_type : String
deriving DecidableEq, Repr

/-- The provider responses getFileInfo can observe: the HEAD outcome, the GET
outcome of the fallback, and whether the one-key listing under the directory
variant of the key has contents. -/
structure HeadGetStub where
  headResult : Except S3ErrInfo ObjMeta
  getResult : Except S3ErrInfo ObjMeta
  listHasContents : Bool

/-- Build the FileInfo for metadata obtained by HEAD or by the GET
fallback. -/
def infoOfMeta (meta : ObjMeta) (s3SubPath pathArg mountId storageType : String) :
    FileInfo :=
  { path := pathArg,
    name := lastNonEmptySegmentOr pathArg "/",
    isDirectory := jsEndsWith s3SubPath "/" || meta.contentType == "application/x-directory",
    size := meta.contentLength,
    contentType := if meta.contentType == "" then "application/octet-stream" else meta.contentType,
    etag := meta.etag,
    mount_id := mountId,
    storage_type := storageType }

/-- The outer catch of getFileInfo: on 404 probe the directory variant of the
key with a one-key listing (directory when non-empty, NotFound otherwise); on
403 fail Forbidden; anything else becomes an internal error. -/
def getFileInfoCatch (stub : HeadGetStub) (e : S3ErrInfo)
    (s3SubPath pathArg mountId storageType : String) (evts : List S3Event) :
    Except HTTPException FileInfo × List S3Event :=
  if e.status == some 404 then
    let dirPath := if jsEndsWith s3SubPath "/" then s3SubPath else s3SubPath ++ "/"
    let evts := evts ++ [.listCmd dirPath (some 1)]
    if stub.listHasContents then
      (.ok { path := pathArg, name := lastNonEmptySegmentOr pathArg "/",
             isDirectory := true, size := 0, contentType := "application/x-directory",
             etag := none, mount_id := mountId, storage_type := storageType }, evts)
    else (.error ⟨404, "文件或目录不存在"⟩, evts)
  else if e.status == some 403 then
    (.error ⟨403, "没有权限访问该文件或目录"⟩, evts)
  else
    (.error ⟨500, "获取文件信息失败: " ++ (if e.name == "" then "未知错误" else e.name) ++
        " - " ++ e.msg⟩, evts)

/-- getFileInfo of the service layer, from the point the normalized S3 key is
in hand: try HEAD; when HEAD fails with 403 or an UnknownError (by name or by
message), fall back to GET with no Range and release the response body; a GET
failure or any other HEAD failure reaches the outer catch. -/
def getFileInfoS3 (stub : HeadGetStub) (s3SubPath pathArg mountId storageType : String) :
    Except HTTPException FileInfo × List S3Event :=
  match stub.headResult with
  | .ok meta =>
    (.ok (infoOfMeta meta s3SubPath pathArg mountId storageType), [.headCmd s3SubPath])
  | .error he =>
    if he.status == some 403 || he.name == "UnknownError" || jsIncludes he.msg "UnknownError" then
      match stub.getResult with
      | .ok meta =>
        (.ok (infoOfMeta meta s3SubPath pathArg mountId storageType),
         [.headCmd s3SubPath, .getCmd s3SubPath none, .releaseBody])
      | .error ge =>
        getFileInfoCatch stub ge s3SubPath pathArg mountId storageType
          [.headCmd s3SubPath, .getCmd s3SubPath none]
    else
      getFileInfoCatch stub he s3SubPath pathArg mountId storageType [.headCmd s3SubPath]

/-! ## uploadFile (direct path) and updateFile -/

/-- MIME groups; only membership in EXECUTABLE matters to the claims. -/
inductive MimeGroup
  | executable
  | other
deriving DecidableEq, Repr

/-- Modelled from the spec: one concrete instance of the MIME classifier of
utils/fileUtils.js (not under src/), mapping the exe extension into the
EXECUTABLE closed set; the theorems about updateFile quantify over the
classifier. -/
def specMimeClassifier : String → String → String × MimeGroup :=
  fun filename declared =>
    if jsEndsWith filename ".exe" then ("application/x-msdownload", .executable)
    else (declared, .other)

/-- The inputs of the direct (non-multipart) uploadFile branch, from the
point the mount is resolved: the normalized S3 sub path (normalizeS3SubPath
is not under src/, its output is taken as input), the configured key prefix
parts, and the file fields the branch reads. -/
structure UploadArgs where
  s3SubPath : String
  rootPfx : String
  defaultFolder : String
  fileName : String
  fileType : String
  fileSize : Nat
deriving DecidableEq, Repr

/-- The result of a direct upload (id, slug and etag elided: the id is
random; the database record itself appears as a trace event). -/
structure UploadResult where
  success : Bool
  path : String
  size : Nat
  mimetype : String
deriving DecidableEq, Repr

/-- The direct uploadFile branch: build the final key from the sub path (or
from rootPfx + defaultFolder at the root), require the parent directory (409
otherwise), PUT the object with the declared content type (defaulting to
application/octet-stream), and insert the file record.  No MIME-group check
occurs on this path. -/
def uploadFileDirect (bucket : Bucket) (ua : UploadArgs) (pathArg : String) :
    Except HTTPException UploadResult × List S3Event :=
  let fileName := if ua.fileName == "" then "unnamed_file" else ua.fileName
  let finalS3Path :=
    if jsTrim ua.s3SubPath != "" then
      (if jsEndsWith ua.s3SubPath "/" then ua.s3SubPath else ua.s3SubPath ++ "/") ++ fileName
    else ua.rootPfx ++ ua.defaultFolder ++ fileName
  let parentMissing :=
    jsIncludesChar finalS3Path '/' &&
      !(checkDirectoryExists bucket (takeThroughLastSlash finalS3Path))
  if parentMissing then (.error ⟨409, "父目录不存在"⟩, [])
  else
    let contentType := if ua.fileType == "" then "application/octet-stream" else ua.fileType
    (.ok { success := true, path := pathArg, size := ua.fileSize, mimetype := contentType },
     [.putCmd finalS3Path contentType, .dbInsertFileRecord finalS3Path])

/-- The content argument of updateFile. -/
inductive UpdateContent
  | str (s : String)
  | arrayBuffer (bytes : List UInt8)
  | uint8Array (bytes : List UInt8)
  | other
deriving DecidableEq, Repr

/-- The 10 MiB updateFile limit. -/
def MAX_FILE_SIZE : Nat := 10 * 1024 * 1024

/-- The size guard at the top of updateFile: strings by length, ArrayBuffers
by byte length; other content shapes are not size-checked. -/
def contentTooLarge : UpdateContent → Bool
  | .str s => decide (MAX_FILE_SIZE < jsLen s)
  | .arrayBuffer bytes => decide (MAX_FILE_SIZE < bytes.length)
  | _ => false

/-- A resolved mount as updateFile consumes it (the normalized S3 key is
taken as input alongside, normalizeS3SubPath being outside src/). -/
structure MountResolved where
  mountId : String
  subPath : String
  s3SubPath : String
  cacheTtl : Int
deriving DecidableEq, Repr

/-- The provider responses updateFile can observe: the optional original
metadata (HEAD failures are tolerated and leave it absent) and the etag of
the PUT. -/
structure UpdateStub where
  headMeta : Option ObjMeta
  putEtag : Option String
deriving DecidableEq, Repr

/-- The result of updateFile. -/
structure UpdateResult where
  success : Bool
  path : String
  etag : Option String
  contentType : String
  isNewFile : Bool
deriving DecidableEq, Repr

/-- updateFile of the service layer: the 10 MiB size guard runs first, before
the mount resolution; then HEAD for the original metadata, MIME
classification from the file name and original content type (EXECUTABLE is
rejected with 403 before any PUT), then PUT.  The classifier is a
parameter. -/
def updateFileModel (classify : String → String → String × MimeGroup)
    (resolveResult : Except HTTPException MountResolved) (stub : UpdateStub)
    (path : String) (content : UpdateContent) :
    Except HTTPException UpdateResult × List S3Event :=
  if contentTooLarge content then
    (.error ⟨400, "文件内容过大，超过最大限制(10MB)"⟩, [])
  else
    match resolveResult with
    | .error e => (.error e, [.resolveMountCall path])
    | .ok r =>
      let fileName := ((jsSplitSlash path).getLast?).getD ""
      let events := [.resolveMountCall path, .headCmd r.s3SubPath]
      let originalType (dflt : String) : String :=
        match stub.headMeta with
        | some m => if m.contentType == "" then dflt else m.contentType
        | none => dflt
      let finishPut (mimeType : String) :
          Except HTTPException UpdateResult × List S3Event :=
        (.ok { success := true, path := path, etag := stub.putEtag,
               contentType := mimeType, isNewFile := stub.headMeta.isNone },
         events ++ [.putCmd r.s3SubPath mimeType])
      match content with
      | .str _ =>
        let cls := classify fileName (originalType "text/plain")
        if cls.2 == .executable then (.error ⟨403, "不允许更新可执行文件类型"⟩, events)
        else finishPut cls.1
      | .arrayBuffer _ =>
        let cls := classify fileName (originalType "application/octet-stream")
        if cls.2 == .executable then (.error ⟨403, "不允许更新可执行文件类型"⟩, events)
        else finishPut cls.1
      | .uint8Array _ =>
        let cls := classify fileName (originalType "application/octet-stream")
        if cls.2 == .executable then (.error ⟨403, "不允许更新可执行文件类型"⟩, events)
        else finishPut cls.1
      | .other => (.error ⟨400, "不支持的内容格式"⟩, events)

/-! ## renameItem -/

/-- A resolved mount as renameItem consumes it for one endpoint. -/
structure RenameResolved where
  mountId : String
  s3SubPath : String
deriving DecidableEq, Repr

/-- The provider responses renameItem can observe: whether the destination
parent exists, whether the destination key exists (HEAD), and the keys listed
under the source prefix for the directory case (pagination flattened). -/
structure RenameStub where
  newParentExists : Bool
  newHeadExists : Bool
  listKeys : List String
deriving DecidableEq, Repr

/-- The prefix rewrite of the directory rename: keys listed under the old
prefix start with it, so JS replace-first-occurrence is the prefix swap. -/
def jsReplaceStart (k oldPfx newPfx : String) : String :=
  if jsStartsWith k oldPfx then newPfx ++ jsDrop k (jsLen oldPfx) else k

/-- renameItem of the service layer: the endpoint types must agree, both
endpoints must resolve, and the two mounts must coincide (BadRequest
otherwise, before any storage call); then the destination parent and
destination existence checks; then copy+delete of the single object, or of
every listed key under the directory prefix (NotFound when the listing is
empty). -/
def renameItemModel (resolveOld resolveNew : Except HTTPException RenameResolved)
    (stub : RenameStub) (oldPath newPath : String) :
    Except HTTPException Unit × List S3Event :=
  let oldIsDirectory := jsEndsWith oldPath "/"
  let newIsDirectory := jsEndsWith newPath "/"
  if oldIsDirectory != newIsDirectory then
    (.error ⟨400, "源路径和目标路径类型必须一致（文件或目录）"⟩, [])
  else
    match resolveOld with
    | .error e => (.error e, [])
    | .ok ro =>
      match resolveNew with
      | .error e => (.error e, [])
      | .ok rn =>
        if ro.mountId != rn.mountId then
          (.error ⟨400, "不支持跨挂载点重命名，请使用复制和删除操作"⟩, [])
        else if jsIncludesChar rn.s3SubPath '/' && !stub.newParentExists then
          (.error ⟨409, "目标父目录不存在"⟩, [])
        else if stub.newHeadExists then
          (.error ⟨409, "目标路径已存在"⟩, [.headCmd rn.s3SubPath])
        else if oldIsDirectory then
          let oldPfx := if jsEndsWith ro.s3SubPath "/" then ro.s3SubPath else ro.s3SubPath ++ "/"
          let newPfx := if jsEndsWith rn.s3SubPath "/" then rn.s3SubPath else rn.s3SubPath ++ "/"
          if stub.listKeys.isEmpty then
            (.error ⟨404, "源目录不存在或为空"⟩,
             [.headCmd rn.s3SubPath, .listCmd oldPfx none])
          else
            (.ok (),
             [.headCmd rn.s3SubPath, .listCmd oldPfx none] ++
               (stub.listKeys.map (fun k =>
                 [S3Event.copyCmd k (jsReplaceStart k oldPfx newPfx), S3Event.deleteCmd k])).flatten)
        else
          (.ok (),
           [.headCmd rn.s3SubPath, .copyCmd ro.s3SubPath rn.s3SubPath,
            .deleteCmd ro.s3SubPath])

/-! ## General lemmas -/

/-- Membership in a filtered cache implies membership in the original. -/
theorem DirCache.mem_invalidate_sub {x : String × String} {c : DirCache} {m s : String}
    (h : x ∈ DirCache.invalidate c m s) : x ∈ c :=
  (List.mem_filter.mp h).1

/-- Membership after an ancestor-chain invalidation implies prior membership. -/
theorem DirCache.mem_invalidatePathAndAncestors_sub {x : String × String} {c : DirCache}
    {m s : String} (h : x ∈ DirCache.invalidatePathAndAncestors c m s) : x ∈ c :=
  (List.mem_filter.mp h).1

/-- The entry at the invalidated key is gone. -/
theorem DirCache.not_mem_invalidate (c : DirCache) (m s : String) :
    (m, s) ∉ DirCache.invalidate c m s := by
  intro h
  have h2 := (List.mem_filter.mp h).2
  simp at h2

/-- Every key on the ancestor walk of the invalidated sub path is gone. -/
theorem DirCache.not_mem_invalidatePathAndAncestors (c : DirCache) (m sub a : String)
    (ha : a ∈ ancestorWalk (jsLen sub) sub) :
    (m, a) ∉ DirCache.invalidatePathAndAncestors c m sub := by
  intro h
  have h2 := (List.mem_filter.mp h).2
  simp at h2
  exact h2 ha

/-- Fold invariant of the batch removal loop: each processed path adds one to
either the success counter or the failure list. -/
theorem batchRemoveItems_foldl_count (rm : String → Except HTTPException Unit) :
    ∀ (paths : List String) (acc : BatchRemoveResult),
      (paths.foldl
        (fun result path =>
          match rm path with
          | .ok _ => { result with success := result.success + 1 }
          | .error e => { result with failed := result.failed ++ [(path, e.message)] })
        acc).success +
      (paths.foldl
        (fun result path =>
          match rm path with
          | .ok _ => { result with success := result.success + 1 }
          | .error e => { result with failed := result.failed ++ [(path, e.message)] })
        acc).failed.length = acc.success + acc.failed.length + paths.length := by
  intro paths
  induction paths with
  | nil => intro acc; simp
  | cons p rest ih =>
    intro acc
    simp only [List.foldl_cons]
    rcases hrm : rm p with e | u
    · simp only [hrm]
      rw [ih]
      simp
      omega
    · simp only [hrm]
      rw [ih]
      simp
      omega

/-- C1: for every gated facade operation and every driver, when the advertised
capability set lacks the capability the operation requires, the facade fails
with Unimplemented (501) and issues no storage call; when the capability is
present, the check never fails and the driver call is returned unchanged. -/
theorem capability_gating {α : Type} (d : Driver) (op : FsOp) (call : OpOutcome α) :
    (requiredCapability op ∉ d.capabilities →
      FileSystem.dispatchOp d op call =
        { result := .error ⟨501, capabilityErrorMessage d.driverType (requiredCapability op)⟩,
          storageCalls := [] }) ∧
    (requiredCapability op ∈ d.capabilities →
      FileSystem.dispatchOp d op call = call) := by
  constructor
  · intro h
    have hb : d.hasCapability (requiredCapability op) = false := by
      simp [Driver.hasCapability, List.contains, List.elem_iff, h]
    simp [FileSystem.dispatchOp, hb]
  · intro h
    have hb : d.hasCapability (requiredCapability op) = true := by
      simp [Driver.hasCapability, List.contains, List.elem_iff, h]
    simp [FileSystem.dispatchOp, hb]

/-- Witness for C1 at a concrete driver advertising only READER: uploadFile is
refused with 501 and no storage call, listDirectory passes through. -/
theorem capability_gating_witness :
    (FileSystem.dispatchOp ⟨"S3", [Capability.reader]⟩ FsOp.uploadFile
        ({ result := .ok (), storageCalls := ["put"] } : OpOutcome Unit) =
      { result := .error ⟨501, "存储驱动 S3 不支持写入操作"⟩, storageCalls := [] }) ∧
    (FileSystem.dispatchOp ⟨"S3", [Capability.reader]⟩ FsOp.listDirectory
        ({ result := .ok (), storageCalls := ["list"] } : OpOutcome Unit) =
      { result := .ok (), storageCalls := ["list"] }) := by
  constructor
  · exact (capability_gating ⟨"S3", [Capability.reader]⟩ FsOp.uploadFile
      { result := .ok (), storageCalls := ["put"] }).1 (by decide)
  · exact (capability_gating ⟨"S3", [Capability.reader]⟩ FsOp.listDirectory
      { result := .ok (), storageCalls := ["list"] }).2 (by decide)

/-- C4: batchRemoveItems never raises for a per-item failure: every path
increments the success counter or appends exactly one failure record, so
success plus the number of failures equals the number of paths; the empty
list yields (0, []), at the driver loop and at the facade alike. -/
theorem batch_remove_totality (d : Driver) (rm : String → Except HTTPException Unit)
    (paths : List String) :
    (batchRemoveItems rm paths).success + (batchRemoveItems rm paths).failed.length
        = paths.length ∧
    batchRemoveItems rm [] = ⟨0, []⟩ ∧
    FileSystem.batchRemoveItems d rm [] = .ok ⟨0, []⟩ := by
  refine ⟨?_, rfl, rfl⟩
  have h := batchRemoveItems_foldl_count rm paths ⟨0, []⟩
  simpa [batchRemoveItems] using h
/-- C8: searchFiles fails with BadRequest before consulting any cache or
mount whenever the trimmed query is shorter than 2 characters, the limit is
out of 1..200, the offset is negative, or the scope is invalid; when all
parameters satisfy the bounds, the validation step never fails. -/
theorem search_validation {α : Type} (query scope : String) (limit offset : Int)
    (rest : SearchRun α) :
    ((jsLen (jsTrim query) < 2 ∨ limit < 1 ∨ 200 < limit ∨ offset < 0 ∨
        scope ∉ ["global", "mount", "directory"]) →
      ∃ msg, searchFiles query scope limit offset rest =
        { result := .error ⟨400, msg⟩, consulted := [] }) ∧
    (2 ≤ jsLen (jsTrim query) → 1 ≤ limit → limit ≤ 200 → 0 ≤ offset →
      scope ∈ ["global", "mount", "directory"] →
      searchFiles query scope limit offset rest = rest) := by
  have hempty : query = "" → jsLen (jsTrim query) = 0 := by
    intro h; subst h; decide
  constructor
  · intro h
    unfold searchFiles
    split_ifs with h1 h2 h3 h4
    · exact ⟨_, rfl⟩
    · exact ⟨_, rfl⟩
    · exact ⟨_, rfl⟩
    · exact ⟨_, rfl⟩
    · exfalso
      rcases h with h | h | h | h | h
      · exact h1 (by simp [h])
      · exact h3 (by simp [h])
      · exact h3 (by simp [h])
      · exact h4 (by simp [h])
      · simp at h h2
        exact h.2.2 (h2 h.1 h.2.1)
  · intro hq hl1 hl2 ho hs
    unfold searchFiles
    split_ifs with h1 h2 h3 h4
    · exfalso
      simp at h1
      rcases h1 with h1 | h1
      · have := hempty h1; omega
      · omega
    · exfalso
      simp at h2 hs
      tauto
    · exfalso
      simp at h3
      rcases h3 with h3 | h3 <;> omega
    · exfalso
      simp at h4
      omega
    · rfl

/-- Witness for C8: a one-character query is refused with 400 and nothing
consulted; valid parameters pass validation unchanged. -/
theorem search_validation_witness :
    (∃ msg, searchFiles "x" "global" 50 0 ({ result := .ok 7, consulted := ["cache"] } : SearchRun Nat) =
      { result := .error ⟨400, msg⟩, consulted := [] }) ∧
    searchFiles "xy" "global" 50 0 ({ result := .ok 7, consulted := ["cache"] } : SearchRun Nat) =
      { result := .ok 7, consulted := ["cache"] } := by
  constructor
  · exact (search_validation "x" "global" 50 0 _).1 (Or.inl (by decide))
  · exact (search_validation "xy" "global" 50 0 _).2 (by decide) (by decide) (by decide)
      (by decide) (by decide)
/-- C10: updateFile rejects string content longer than 10 MiB and
ArrayBuffer content larger than 10 MiB with BadRequest before the mount is
resolved and before any storage call: the trace is empty, so the stored
object is untouched. -/
theorem update_file_size_limit (classify : String → String → String × MimeGroup)
    (resolveResult : Except HTTPException MountResolved) (stub : UpdateStub)
    (path : String) (content : UpdateContent)
    (h : (∃ s, content = .str s ∧ 10 * 1024 * 1024 < jsLen s) ∨
         (∃ bs, content = .arrayBuffer bs ∧ 10 * 1024 * 1024 < bs.length)) :
    updateFileModel classify resolveResult stub path content =
      (.error ⟨400, "文件内容过大，超过最大限制(10MB)"⟩, []) := by
  have hb : contentTooLarge content = true := by
    rcases h with ⟨s, rfl, hs⟩ | ⟨bs, rfl, hbs⟩
    · simp [contentTooLarge, MAX_FILE_SIZE, hs]
    · simp [contentTooLarge, MAX_FILE_SIZE, hbs]
  simp [updateFileModel, hb]

/-- Witness for C10 at a string one character over the limit. -/
theorem update_file_size_limit_witness :
    updateFileModel specMimeClassifier (.ok ⟨"m1", "/x.txt", "x.txt", 60⟩) ⟨none, none⟩
        "/x.txt" (.str (String.mk (List.replicate (10 * 1024 * 1024 + 1) 'a'))) =
      (.error ⟨400, "文件内容过大，超过最大限制(10MB)"⟩, []) := by
  apply update_file_size_limit
  refine Or.inl ⟨_, rfl, ?_⟩
  show 10 * 1024 * 1024 < (List.replicate (10 * 1024 * 1024 + 1) 'a').length
  rw [List.length_replicate]
  omega

/-- C9: when the two endpoints of renameItem resolve to different mounts, the
operation fails with a 400 BadRequest and the trace is empty: no copy and no
delete reach storage. -/
theorem cross_mount_rename_rejected (ro rn : RenameResolved) (stub : RenameStub)
    (oldPath newPath : String) (h : ro.mountId ≠ rn.mountId) :
    ∃ e : HTTPException,
      renameItemModel (.ok ro) (.ok rn) stub oldPath newPath = (.error e, []) ∧
      e.status = 400 := by
  by_cases ht : jsEndsWith oldPath "/" = jsEndsWith newPath "/"
  · refine ⟨⟨400, "不支持跨挂载点重命名，请使用复制和删除操作"⟩, ?_, rfl⟩
    have h1 : (jsEndsWith oldPath "/" != jsEndsWith newPath "/") = false := by
      simp [ht]
    have h2 : (ro.mountId != rn.mountId) = true := by
      simp [h]
    simp [renameItemModel, h1, h2]
  · refine ⟨⟨400, "源路径和目标路径类型必须一致（文件或目录）"⟩, ?_, rfl⟩
    have h1 : (jsEndsWith oldPath "/" != jsEndsWith newPath "/") = true := by
      simp [ht]
    simp [renameItemModel, h1]

/-- Witness for C9 at two concrete mounts. -/
theorem cross_mount_rename_rejected_witness :
    ∃ e : HTTPException,
      renameItemModel (.ok ⟨"m1", "docs/a.txt"⟩) (.ok ⟨"m2", "pics/a.txt"⟩)
          ⟨true, false, []⟩ "/docs/a.txt" "/pics/a.txt" = (.error e, []) ∧
      e.status = 400 :=
  cross_mount_rename_rejected ⟨"m1", "docs/a.txt"⟩ ⟨"m2", "pics/a.txt"⟩
    ⟨true, false, []⟩ "/docs/a.txt" "/pics/a.txt" (by decide)
/-- The part up to the last slash is a prefix of the list itself. -/
theorem dropAfterLastSlashL_prefixOf (l : List Char) : dropAfterLastSlashL l <+: l := by
  obtain ⟨t, ht⟩ := List.dropWhile_suffix (l := l.reverse) (fun c => c != '/')
  refine ⟨t.reverse, ?_⟩
  unfold dropAfterLastSlashL
  rw [← List.reverse_append, ht, List.reverse_reverse]

/-- The parent key computed by the createDirectory / renameItem parent checks
is a character prefix of the key itself. -/
theorem jsStartsWith_takeThroughLastSlashBeforeEnd (key : String) :
    jsStartsWith key (takeThroughLastSlashBeforeEnd key) = true := by
  unfold jsStartsWith takeThroughLastSlashBeforeEnd
  rw [List.isPrefixOf_iff_prefix]
  exact (dropAfterLastSlashL_prefixOf key.data.dropLast).trans (List.dropLast_prefix key.data)

/-- An object present under a key yields that key with some entry of the
bucket list. -/
theorem headObject_some_mem {b : Bucket} {key : String}
    (h : (headObject b key).isSome = true) : ∃ o, (key, o) ∈ b := by
  unfold headObject at h
  rcases hf : b.find? (fun e => e.1 == key) with _ | e
  · rw [hf] at h
    simp at h
  · have hm := List.mem_of_find?_eq_some hf
    have hp := List.find?_some hf
    obtain ⟨k, o⟩ := e
    simp at hp
    subst hp
    exact ⟨o, hm⟩

/-- A bucket that contains the key passes the parent-directory probe for the
parent of that key. -/
theorem checkDirectoryExists_parent_of_mem {b : Bucket} {key : String}
    (h : (headObject b key).isSome = true) :
    checkDirectoryExists b (takeThroughLastSlashBeforeEnd key) = true := by
  obtain ⟨o, hm⟩ := headObject_some_mem h
  unfold checkDirectoryExists
  rw [Bool.or_eq_true]
  right
  rw [List.any_eq_true]
  exact ⟨(key, o), hm, jsStartsWith_takeThroughLastSlashBeforeEnd key⟩

/-- createDirectory on a key whose object exists fails with 409, whatever the
rest of the bucket contains. -/
theorem createDirectoryS3_existing (b : Bucket) (key : String)
    (h : (headObject b key).isSome = true) :
    createDirectoryS3 b key = .error ⟨409, "目录已存在"⟩ := by
  have hcd := checkDirectoryExists_parent_of_mem h
  simp [createDirectoryS3, hcd, h]

/-- Looking up the key just inserted at the front of the bucket returns the
inserted object. -/
theorem headObject_cons_self (b : Bucket) (key : String) (o : S3Obj) :
    headObject ((key, o) :: b) key = some o := by
  simp [headObject, List.find?]

/-- C5: createDirectory on an existing object key fails with Conflict; a
first call on a non-existing key whose parent passes the existence probe
succeeds by writing a zero-byte object with content type
application/x-directory; hence every subsequent createDirectory on the same
key fails with Conflict until the object is removed. -/
theorem create_directory_conflict_idempotence (b : Bucket) (key : String) :
    ((headObject b key).isSome = true →
      createDirectoryS3 b key = .error ⟨409, "目录已存在"⟩) ∧
    (headObject b key = none →
     (1 < ((jsSplitSlash key).filter (fun seg => seg != "")).length →
        checkDirectoryExists b (takeThroughLastSlashBeforeEnd key) = true) →
      createDirectoryS3 b key = .ok ((key, ⟨"application/x-directory", ""⟩) :: b) ∧
      headObject ((key, ⟨"application/x-directory", ""⟩) :: b) key =
        some ⟨"application/x-directory", ""⟩ ∧
      createDirectoryS3 ((key, ⟨"application/x-directory", ""⟩) :: b) key =
        .error ⟨409, "目录已存在"⟩) := by
  constructor
  · exact createDirectoryS3_existing b key
  · intro hnone hparent
    refine ⟨?_, headObject_cons_self b key _, ?_⟩
    · by_cases hseg : 1 < ((jsSplitSlash key).filter (fun seg => seg != "")).length
      · simp [createDirectoryS3, hseg, hparent hseg, hnone]
      · simp [createDirectoryS3, hseg, hnone]
    · apply createDirectoryS3_existing
      rw [headObject_cons_self]
      rfl

/-- Witness for C5: create docs/a/ in a bucket holding the parent docs/
placeholder, then create it again. -/
theorem create_directory_conflict_idempotence_witness :
    createDirectoryS3 [("docs/", ⟨"application/x-directory", ""⟩)] "docs/a/" =
      .ok [("docs/a/", ⟨"application/x-directory", ""⟩),
           ("docs/", ⟨"application/x-directory", ""⟩)] ∧
    createDirectoryS3 [("docs/a/", ⟨"application/x-directory", ""⟩),
           ("docs/", ⟨"application/x-directory", ""⟩)] "docs/a/" =
      .error ⟨409, "目录已存在"⟩ := by
  have h := (create_directory_conflict_idempotence
      [("docs/", ⟨"application/x-directory", ""⟩)] "docs/a/").2 (by decide)
      (fun _ => by decide)
  exact ⟨h.1, h.2.2⟩
/-- C6: getFileInfo issues HEAD first; on a 403 or UnknownError failure it
falls back to a GET with no Range and releases the response body; on a 404
failure it issues a one-key listing with the slash-suffixed key as prefix,
reporting a directory when the listing is non-empty and NotFound when it is
empty. -/
theorem get_file_info_fallbacks (stub : HeadGetStub) (key pathArg mid stype : String) :
    (∀ he meta, stub.headResult = .error he →
      (he.status = some 403 ∨ he.name = "UnknownError" ∨ jsIncludes he.msg "UnknownError" = true) →
      stub.getResult = .ok meta →
      getFileInfoS3 stub key pathArg mid stype =
        (.ok (infoOfMeta meta key pathArg mid stype),
         [.headCmd key, .getCmd key none, .releaseBody])) ∧
    (∀ he, stub.headResult = .error he →
      he.status = some 404 →
      he.name ≠ "UnknownError" → jsIncludes he.msg "UnknownError" = false →
      jsEndsWith key "/" = false →
      (getFileInfoS3 stub key pathArg mid stype).2 =
        [.headCmd key, .listCmd (key ++ "/") (some 1)] ∧
      (stub.listHasContents = true →
        ∃ fi, (getFileInfoS3 stub key pathArg mid stype).1 = .ok fi ∧ fi.isDirectory = true) ∧
      (stub.listHasContents = false →
        (getFileInfoS3 stub key pathArg mid stype).1 = .error ⟨404, "文件或目录不存在"⟩)) := by
  constructor
  · intro he meta hhead hcond hget
    have hb : (he.status == some 403 || he.name == "UnknownError" ||
        jsIncludes he.msg "UnknownError") = true := by
      rcases hcond with h | h | h <;> simp [h]
    simp [getFileInfoS3, hhead, hb, hget]
  · intro he hhead h404 hname hmsg hkey
    have hb : (he.status == some 403 || he.name == "UnknownError" ||
        jsIncludes he.msg "UnknownError") = false := by
      simp [h404, hname, hmsg]
    have h404b : (he.status == some 404) = true := by simp [h404]
    refine ⟨?_, ?_, ?_⟩
    · simp [getFileInfoS3, hhead, hb, getFileInfoCatch, h404b, hkey]
      by_cases hl : stub.listHasContents = true <;> simp [hl]
    · intro hl
      refine ⟨{ path := pathArg, name := lastNonEmptySegmentOr pathArg "/",
                isDirectory := true, size := 0, contentType := "application/x-directory",
                etag := none, mount_id := mid, storage_type := stype }, ?_, rfl⟩
      simp [getFileInfoS3, hhead, hb, getFileInfoCatch, h404b, hkey, hl]
    · intro hl
      simp [getFileInfoS3, hhead, hb, getFileInfoCatch, h404b, hkey, hl]

/-- Witness for C6: a 403 HEAD failure falls back to GET, and a 404 HEAD
failure probes the directory listing. -/
theorem get_file_info_fallbacks_witness :
    getFileInfoS3 ⟨.error ⟨some 403, "Forbidden", ""⟩, .ok ⟨"text/plain", 5, some "e"⟩, true⟩
        "docs/a" "/docs/a" "m1" "S3" =
      (.ok (infoOfMeta ⟨"text/plain", 5, some "e"⟩ "docs/a" "/docs/a" "m1" "S3"),
       [.headCmd "docs/a", .getCmd "docs/a" none, .releaseBody]) ∧
    (getFileInfoS3 ⟨.error ⟨some 404, "NotFound", ""⟩, .error ⟨some 404, "NotFound", ""⟩, false⟩
        "docs/a" "/docs/a" "m1" "S3").2 =
      [.headCmd "docs/a", .listCmd ("docs/a" ++ "/") (some 1)] ∧
    (getFileInfoS3 ⟨.error ⟨some 404, "NotFound", ""⟩, .error ⟨some 404, "NotFound", ""⟩, false⟩
        "docs/a" "/docs/a" "m1" "S3").1 = .error ⟨404, "文件或目录不存在"⟩ := by
  refine ⟨?_, ?_, ?_⟩
  · exact (get_file_info_fallbacks
      ⟨.error ⟨some 403, "Forbidden", ""⟩, .ok ⟨"text/plain", 5, some "e"⟩, true⟩
      "docs/a" "/docs/a" "m1" "S3").1 _ _ rfl (Or.inl rfl) rfl
  · exact ((get_file_info_fallbacks
      ⟨.error ⟨some 404, "NotFound", ""⟩, .error ⟨some 404, "NotFound", ""⟩, false⟩
      "docs/a" "/docs/a" "m1" "S3").2 _ rfl rfl (by decide) (by decide) (by decide)).1
  · exact ((get_file_info_fallbacks
      ⟨.error ⟨some 404, "NotFound", ""⟩, .error ⟨some 404, "NotFound", ""⟩, false⟩
      "docs/a" "/docs/a" "m1" "S3").2 _ rfl rfl (by decide) (by decide) (by decide)).2.2 rfl
/-- Counterexample to C7: the direct uploadFile path consults no MIME
classifier at all.  A file whose name classifies into the EXECUTABLE group
(x.exe under the spec-modelled classifier) is uploaded anyway: the object is
PUT to storage with the executable content type and the file record is
inserted, contradicting the claimed rejection. -/
theorem upload_executable_counterexample :
    (specMimeClassifier "x.exe" "application/x-msdownload").2 = MimeGroup.executable ∧
    uploadFileDirect [("docs/", ⟨"application/x-directory", ""⟩)]
        ⟨"docs/", "", "", "x.exe", "application/x-msdownload", 3⟩ "/docs/x.exe" =
      (.ok ⟨true, "/docs/x.exe", 3, "application/x-msdownload"⟩,
       [.putCmd "docs/x.exe" "application/x-msdownload",
        .dbInsertFileRecord "docs/x.exe"]) := ⟨rfl, rfl⟩

/-- C7 amended: the EXECUTABLE MIME-group rejection exists only in
updateFile, which fails with 403 before any PUT when the classifier maps the
file name into the EXECUTABLE group (for string and for binary content within
the size limit); the direct uploadFile path performs no MIME-group check and
PUTs the object whenever the parent-directory probe passes, whatever the file
name. -/
theorem executable_mime_policy (classify : String → String → String × MimeGroup)
    (r : MountResolved) (stub : UpdateStub) (path : String)
    (hexec : ∀ declared,
      (classify (((jsSplitSlash path).getLast?).getD "") declared).2 = MimeGroup.executable) :
    (∀ s : String, jsLen s ≤ MAX_FILE_SIZE →
      updateFileModel classify (.ok r) stub path (.str s) =
        (.error ⟨403, "不允许更新可执行文件类型"⟩,
         [.resolveMountCall path, .headCmd r.s3SubPath])) ∧
    (∀ bytes : List UInt8, bytes.length ≤ MAX_FILE_SIZE →
      updateFileModel classify (.ok r) stub path (.arrayBuffer bytes) =
        (.error ⟨403, "不允许更新可执行文件类型"⟩,
         [.resolveMountCall path, .headCmd r.s3SubPath])) ∧
    (∀ (bucket : Bucket) (ua : UploadArgs) (pathArg : String),
      (uploadFileDirect bucket ua pathArg).1 ≠ .error ⟨409, "父目录不存在"⟩ →
      ∃ key, S3Event.putCmd key
          (if ua.fileType == "" then "application/octet-stream" else ua.fileType)
          ∈ (uploadFileDirect bucket ua pathArg).2) := by
  refine ⟨?_, ?_, ?_⟩
  · intro s hs
    have hb : contentTooLarge (.str s) = false := by
      simp [contentTooLarge]
      omega
    have hcls := hexec (match stub.headMeta with
      | some m => if m.contentType == "" then "text/plain" else m.contentType
      | none => "text/plain")
    simp [updateFileModel, hb]
    simpa using hcls
  · intro bytes hbs
    have hb : contentTooLarge (.arrayBuffer bytes) = false := by
      simp [contentTooLarge]
      omega
    have hcls := hexec (match stub.headMeta with
      | some m => if m.contentType == "" then "application/octet-stream" else m.contentType
      | none => "application/octet-stream")
    simp [updateFileModel, hb]
    simpa using hcls
  · intro bucket ua pathArg hok
    by_cases hpm : (jsIncludesChar
        (if jsTrim ua.s3SubPath != "" then
          (if jsEndsWith ua.s3SubPath "/" then ua.s3SubPath else ua.s3SubPath ++ "/") ++
            (if ua.fileName == "" then "unnamed_file" else ua.fileName)
         else ua.rootPfx ++ ua.defaultFolder ++
            (if ua.fileName == "" then "unnamed_file" else ua.fileName)) '/' &&
        !(checkDirectoryExists bucket (takeThroughLastSlash
          (if jsTrim ua.s3SubPath != "" then
            (if jsEndsWith ua.s3SubPath "/" then ua.s3SubPath else ua.s3SubPath ++ "/") ++
              (if ua.fileName == "" then "unnamed_file" else ua.fileName)
           else ua.rootPfx ++ ua.defaultFolder ++
              (if ua.fileName == "" then "unnamed_file" else ua.fileName))))) = true
    · exfalso
      apply hok
      simp only [uploadFileDirect]
      rw [if_pos hpm]
    · simp only [uploadFileDirect]
      rw [if_neg hpm]
      exact ⟨_, List.mem_cons_self _ _⟩
/-- Witness for the amended C7: under the spec-modelled classifier, updating
x.exe is refused with 403 and no PUT, while uploading into an existing
directory always PUTs. -/
theorem executable_mime_policy_witness :
    updateFileModel specMimeClassifier (.ok ⟨"m1", "/a/x.exe", "a/x.exe", 60⟩)
        ⟨none, some "e"⟩ "/docs/a/x.exe" (.str "hi") =
      (.error ⟨403, "不允许更新可执行文件类型"⟩,
       [.resolveMountCall "/docs/a/x.exe", .headCmd "a/x.exe"]) ∧
    ∃ key, S3Event.putCmd key "application/x-msdownload" ∈
      (uploadFileDirect [("docs/", ⟨"application/x-directory", ""⟩)]
        ⟨"docs/", "", "", "x.exe", "application/x-msdownload", 3⟩ "/docs/x.exe").2 := by
  have hval : uploadFileDirect [("docs/", ⟨"application/x-directory", ""⟩)]
      ⟨"docs/", "", "", "x.exe", "application/x-msdownload", 3⟩ "/docs/x.exe" =
    (.ok ⟨true, "/docs/x.exe", 3, "application/x-msdownload"⟩,
     [.putCmd "docs/x.exe" "application/x-msdownload",
      .dbInsertFileRecord "docs/x.exe"]) := rfl
  have h := executable_mime_policy specMimeClassifier ⟨"m1", "/a/x.exe", "a/x.exe", 60⟩
    ⟨none, some "e"⟩ "/docs/a/x.exe" (fun declared => by
      have hfn : ((jsSplitSlash "/docs/a/x.exe").getLast?).getD "" = "x.exe" := by decide
      rw [hfn]
      simp [specMimeClassifier, show jsEndsWith "x.exe" ".exe" = true from by decide])
  refine ⟨h.1 "hi" (by decide), ?_⟩
  have h3 := h.2.2 [("docs/", ⟨"application/x-directory", ""⟩)]
    ⟨"docs/", "", "", "x.exe", "application/x-msdownload", 3⟩ "/docs/x.exe"
    (by rw [hval]; simp)
  simpa using h3
/-- Counterexample to C3: two mutations leave a claimed-absent entry in the
cache.  createDirectory with sub path /a/b/ only invalidates the parent chain
(/a/ and /), so a pre-existing entry at the created directory itself,
(m1, /a/b/), survives; and updateFile skips invalidation entirely when the
mount has cache_ttl = 0, so the ancestor entry (m1, /) survives a successful
update of /x.txt. -/
theorem cache_invalidation_counterexample :
    ("m1", "/a/b/") ∈ createDirInvalidate [("m1", "/a/b/")] "m1" "/a/b/" ∧
    ("m1", "/") ∈ updateInvalidate [("m1", "/")] "m1" "/x.txt" 0 := by
  constructor <;> decide
/-- Appending a slash makes a string end with a slash. -/
theorem jsEndsWith_append_slash (s : String) : jsEndsWith (s ++ "/") "/" = true := by
  unfold jsEndsWith
  rw [List.isSuffixOf_iff_suffix, String.data_append]
  exact List.suffix_append _ _

/-- A directory-normalized path ends with a slash. -/
theorem normalizePath_dir_endsWith (path : String) :
    jsEndsWith (normalizePath path true) "/" = true := by
  unfold normalizePath
  by_cases h1 : jsStartsWith path "/" = true
  · by_cases h2 : jsEndsWith path "/" = true
    · simp [h1, h2]
    · simp [h1, h2, jsEndsWith_append_slash]
  · by_cases h2 : jsEndsWith ("/" ++ path) "/" = true
    · simp [h1, h2]
    · simp [h1, h2, jsEndsWith_append_slash]

/-- For a mount path that already starts with a slash, the selection
condition of the loop is exactly the startsWith test (the equality case is an
instance of it). -/
theorem mountSelCond_eq_startsWith (m : Mount) (p : String)
    (hstart : jsStartsWith m.mount_path "/" = true) :
    mountSelCond m p = jsStartsWith p (m.mount_path ++ "/") := by
  unfold mountSelCond normalizedMountPath
  rw [if_pos hstart]
  by_cases h : p = m.mount_path ++ "/"
  · subst h
    have hself : jsStartsWith (m.mount_path ++ "/") (m.mount_path ++ "/") = true := by
      unfold jsStartsWith
      rw [List.isPrefixOf_iff_prefix]
    simp [hself]
  · simp [h]

/-- Under the path-shape invariants, the claimed matching condition coincides
with the selection condition of the loop. -/
theorem mountMatches_iff (m : Mount) (p : String)
    (hstart : jsStartsWith m.mount_path "/" = true)
    (hend : jsEndsWith m.mount_path "/" = false)
    (hp : jsEndsWith p "/" = true) :
    mountMatches m p ↔ mountSelCond m p = true := by
  rw [mountSelCond_eq_startsWith m p hstart]
  unfold mountMatches
  constructor
  · rintro (h | h)
    · exfalso
      rw [h] at hend
      rw [hp] at hend
      cases hend
    · exact h
  · intro h
    exact Or.inr h

/-- The remainder after a matching mount path begins with a slash. -/
theorem jsDrop_after_match (mp p : String) (h : jsStartsWith p (mp ++ "/") = true) :
    jsStartsWith (jsDrop p (jsLen mp)) "/" = true := by
  unfold jsStartsWith at h
  obtain ⟨t, ht⟩ := List.isPrefixOf_iff_prefix.mp h
  rw [String.data_append] at ht
  unfold jsDrop jsLen jsStartsWith
  have hd : p.data.drop mp.data.length = ("/" : String).data ++ t := by
    rw [← ht, List.append_assoc, List.drop_left]
  rw [List.isPrefixOf_iff_prefix]
  exact ⟨t, by rw [hd]⟩

/-- Soundness of the resolution loop: a hit is a member satisfying the
selection condition, and the sub path has the computed form. -/
theorem findMatchingMount_spec (p : String) :
    ∀ (l : List Mount) (m : Mount) (s : String), findMatchingMount p l = some (m, s) →
      m ∈ l ∧ mountSelCond m p = true ∧
      s = (if jsStartsWith (jsDrop p (jsLen (normalizedMountPath m))) "/" then
             jsDrop p (jsLen (normalizedMountPath m))
           else "/" ++ jsDrop p (jsLen (normalizedMountPath m))) := by
  intro l
  induction l with
  | nil => intro m s h; cases h
  | cons hd tl ih =>
    intro m s h
    unfold findMatchingMount at h
    by_cases hc : mountSelCond hd p = true
    · simp [hc] at h
      obtain ⟨rfl, rfl⟩ := h
      exact ⟨List.mem_cons_self _ _, hc, rfl⟩
    · simp [hc] at h
      obtain ⟨h1, h2, h3⟩ := ih m s h
      exact ⟨List.mem_cons_of_mem _ h1, h2, h3⟩

/-- Completeness of the resolution loop: a miss means no member satisfies the
selection condition. -/
theorem findMatchingMount_none (p : String) :
    ∀ l : List Mount, findMatchingMount p l = none →
      ∀ m ∈ l, mountSelCond m p = false := by
  intro l
  induction l with
  | nil => intro _ m hm; cases hm
  | cons hd tl ih =>
    intro h m hm
    unfold findMatchingMount at h
    by_cases hc : mountSelCond hd p = true
    · simp [hc] at h
    · simp [hc] at h
      rcases List.mem_cons.mp hm with rfl | hm2
      · simpa using hc
      · exact ih h m hm2

/-- On a list sorted by mount-path length descending, the loop returns a
match of maximal mount-path length. -/
theorem findMatchingMount_longest (p : String) :
    ∀ l : List Mount,
      l.Pairwise (fun a b => jsLen b.mount_path ≤ jsLen a.mount_path) →
      ∀ m s, findMatchingMount p l = some (m, s) →
      ∀ m2 ∈ l, mountSelCond m2 p = true → jsLen m2.mount_path ≤ jsLen m.mount_path := by
  intro l
  induction l with
  | nil => intro _ m s h; cases h
  | cons hd tl ih =>
    intro hpw m s h m2 hm2 hc2
    rw [List.pairwise_cons] at hpw
    unfold findMatchingMount at h
    by_cases hc : mountSelCond hd p = true
    · simp [hc] at h
      obtain ⟨rfl, -⟩ := h
      rcases List.mem_cons.mp hm2 with rfl | hm2
      · exact le_refl _
      · exact hpw.1 m2 hm2
    · simp [hc] at h
      rcases List.mem_cons.mp hm2 with rfl | hm2
      · rw [hc2] at hc
        exact absurd rfl hc
      · exact ih hpw.2 m s h m2 hm2 hc2

/-- Membership through the stable insertion. -/
theorem mem_sortedInsertByLenDesc {a m : Mount} :
    ∀ {l : List Mount}, a ∈ sortedInsertByLenDesc m l ↔ a = m ∨ a ∈ l := by
  intro l
  induction l with
  | nil => simp [sortedInsertByLenDesc]
  | cons x xs ih =>
    unfold sortedInsertByLenDesc
    by_cases hc : jsLen m.mount_path < jsLen x.mount_path
    · simp [hc, ih]
      tauto
    · simp [hc]

/-- The stable insertion preserves the descending order. -/
theorem pairwise_sortedInsertByLenDesc {m : Mount} :
    ∀ {l : List Mount},
      l.Pairwise (fun a b => jsLen b.mount_path ≤ jsLen a.mount_path) →
      (sortedInsertByLenDesc m l).Pairwise
        (fun a b => jsLen b.mount_path ≤ jsLen a.mount_path) := by
  intro l
  induction l with
  | nil => intro _; simp [sortedInsertByLenDesc]
  | cons x xs ih =>
    intro hpw
    rw [List.pairwise_cons] at hpw
    unfold sortedInsertByLenDesc
    by_cases hc : jsLen m.mount_path < jsLen x.mount_path
    · rw [if_pos hc]
      rw [List.pairwise_cons]
      refine ⟨?_, ih hpw.2⟩
      intro y hy
      rcases mem_sortedInsertByLenDesc.mp hy with rfl | hy2
      · omega
      · exact hpw.1 y hy2
    · rw [if_neg hc]
      rw [List.pairwise_cons]
      refine ⟨?_, List.pairwise_cons.mpr hpw⟩
      intro y hy
      rcases List.mem_cons.mp hy with rfl | hy2
      · omega
      · have := hpw.1 y hy2
        omega

/-- The sort of the resolution phase is ordered by mount-path length
descending. -/
theorem sortMounts_pairwise (l : List Mount) :
    (sortMountsByPathLength l).Pairwise
      (fun a b => jsLen b.mount_path ≤ jsLen a.mount_path) := by
  induction l with
  | nil => simp [sortMountsByPathLength]
  | cons m rest ih =>
    exact pairwise_sortedInsertByLenDesc ih

/-- The sort permutes: same members. -/
theorem sortMounts_mem {a : Mount} {l : List Mount} :
    a ∈ sortMountsByPathLength l ↔ a ∈ l := by
  induction l with
  | nil => simp [sortMountsByPathLength]
  | cons m rest ih =>
    unfold sortMountsByPathLength
    rw [mem_sortedInsertByLenDesc]
    simp [ih]

/-- A mount visible to a principal is an active mount of the table owned by
that principal. -/
theorem mountsForUser_spec {allMounts : List Mount} {user : UserIdent} {m : Mount}
    (h : m ∈ mountsForUser allMounts user) :
    m ∈ allMounts ∧ m.is_active = true ∧ ownedBy user m := by
  cases user with
  | admin uid =>
    rw [mountsForUser, getMountsByAdmin] at h
    rw [List.mem_filter] at h
    refine ⟨h.1, ?_, ?_⟩
    · have := h.2
      simp at this
      exact this.1
    · have := h.2
      simp at this
      simpa [ownedBy] using this.2
  | apiKey k permitted =>
    rw [mountsForUser, getMountsByApiKey] at h
    rw [List.mem_filter] at h
    refine ⟨h.1, ?_, ?_⟩
    · have := h.2
      simp at this
      exact this.1
    · have := h.2
      simp [List.contains, List.elem_iff] at this
      simpa [ownedBy] using this.2
/-- C2: resolution considers only the active mounts of the principal, sorts
them by mount-path length descending and selects the first mount whose
mountPath equals the (directory-normalized) path or whose mountPath ++ "/"
prefixes it; the sub path is the remainder of the path, which carries a
leading slash; when no mount matches, the path resolves to a virtual listing
synthesized from the mount table instead of a driver. -/
theorem mount_resolution (allMounts : List Mount) (user : UserIdent) (path : String)
    (hwf : ∀ m ∈ allMounts, jsStartsWith m.mount_path "/" = true ∧
             jsEndsWith m.mount_path "/" = false) :
    (∀ m s, listDirectoryResolve allMounts user path = .real m s →
      m ∈ mountsForUser allMounts user ∧ m.is_active = true ∧ ownedBy user m ∧
      mountMatches m (normalizePath path true) ∧
      (∀ m2 ∈ mountsForUser allMounts user, mountMatches m2 (normalizePath path true) →
        jsLen m2.mount_path ≤ jsLen m.mount_path) ∧
      s = jsDrop (normalizePath path true) (jsLen m.mount_path) ∧
      jsStartsWith s "/" = true) ∧
    ((∀ m2 ∈ mountsForUser allMounts user, ¬ mountMatches m2 (normalizePath path true)) →
      listDirectoryResolve allMounts user path =
        .virtualDir (getVirtualDirectoryListing
          (sortMountsByPathLength (mountsForUser allMounts user)) (normalizePath path true)) ∧
      (getVirtualDirectoryListing (sortMountsByPathLength (mountsForUser allMounts user))
          (normalizePath path true)).isVirtual = true) := by
  have hp := normalizePath_dir_endsWith path
  constructor
  · intro m s h
    rcases hfm : findMatchingMount (normalizePath path true)
        (sortMountsByPathLength (mountsForUser allMounts user)) with _ | pair
    · simp [listDirectoryResolve, hfm] at h
    · obtain ⟨m1, s1⟩ := pair
      have hval : listDirectoryResolve allMounts user path = .real m1 s1 := by
        simp [listDirectoryResolve, hfm]
      rw [hval] at h
      obtain ⟨h1, h2⟩ := Resolution.real.inj h
      subst h1
      subst h2
      obtain ⟨hmem, hcond, hs⟩ := findMatchingMount_spec _ _ _ _ hfm
      have hmemU : m1 ∈ mountsForUser allMounts user := sortMounts_mem.mp hmem
      obtain ⟨hmemA, hact, hown⟩ := mountsForUser_spec hmemU
      obtain ⟨hstart, hend⟩ := hwf m1 hmemA
      have hnorm : normalizedMountPath m1 = m1.mount_path := by
        unfold normalizedMountPath
        rw [if_pos hstart]
      have hpref : jsStartsWith (normalizePath path true) (m1.mount_path ++ "/") = true := by
        rw [← mountSelCond_eq_startsWith m1 _ hstart]
        exact hcond
      have hraw := jsDrop_after_match m1.mount_path (normalizePath path true) hpref
      refine ⟨hmemU, hact, hown,
        (mountMatches_iff m1 _ hstart hend hp).mpr hcond, ?_, ?_, ?_⟩
      · intro m2 hm2 hmatch2
        obtain ⟨hmemA2, -, -⟩ := mountsForUser_spec hm2
        obtain ⟨hstart2, hend2⟩ := hwf m2 hmemA2
        have hcond2 := (mountMatches_iff m2 _ hstart2 hend2 hp).mp hmatch2
        exact findMatchingMount_longest _ _
          (sortMounts_pairwise (mountsForUser allMounts user)) m1 _ hfm m2
          (sortMounts_mem.mpr hm2) hcond2
      · rw [hs, hnorm, if_pos hraw]
      · rw [hs, hnorm, if_pos hraw]
        exact hraw
  · intro hnone
    rcases hfm : findMatchingMount (normalizePath path true)
        (sortMountsByPathLength (mountsForUser allMounts user)) with _ | pair
    · constructor
      · simp [listDirectoryResolve, hfm]
      · rfl
    · exfalso
      obtain ⟨m1, s1⟩ := pair
      obtain ⟨hmem, hcond, -⟩ := findMatchingMount_spec _ _ _ _ hfm
      have hmemU : m1 ∈ mountsForUser allMounts user := sortMounts_mem.mp hmem
      obtain ⟨hmemA, -, -⟩ := mountsForUser_spec hmemU
      obtain ⟨hstart, hend⟩ := hwf m1 hmemA
      exact hnone m1 hmemU ((mountMatches_iff m1 _ hstart hend hp).mpr hcond)

/-- Witness for C2 at a one-mount table: /docs/a resolves to the docs mount
with sub path /a/, and with no matching mount the root resolves virtually. -/
theorem mount_resolution_witness :
    (let m : Mount := ⟨"m1", "docs", "/docs", "S3", "cfg", 60, true, "u1"⟩
     m ∈ mountsForUser [m] (.admin "u1") ∧ m.is_active = true ∧
       ownedBy (.admin "u1") m ∧ mountMatches m (normalizePath "/docs/a" true) ∧
       (∀ m2 ∈ mountsForUser [m] (.admin "u1"),
         mountMatches m2 (normalizePath "/docs/a" true) →
         jsLen m2.mount_path ≤ jsLen m.mount_path) ∧
       "/a/" = jsDrop (normalizePath "/docs/a" true) (jsLen m.mount_path) ∧
       jsStartsWith "/a/" "/" = true) := by
  intro m
  apply (mount_resolution [m] (.admin "u1") "/docs/a" (by decide)).1 m "/a/"
  rfl
/-- Character count of an appended string. -/
theorem jsLen_append (a b : String) : jsLen (a ++ b) = jsLen a + jsLen b := by
  unfold jsLen
  rw [String.data_append, List.length_append]

/-- Joining a trailing segment. -/
theorem segsJoin_concat (l : List String) (e : String) :
    segsJoin (l ++ [e]) = segsJoin l ++ (e ++ "/") := by
  induction l with
  | nil => simp [segsJoin]
  | cons x xs ih =>
    show x ++ "/" ++ segsJoin (xs ++ [e]) = x ++ "/" ++ segsJoin xs ++ (e ++ "/")
    rw [ih]
    simp [String.append_assoc]

/-- Directory of a segment list with a trailing segment appended. -/
theorem dirOfSegments_concat (l : List String) (e : String) :
    dirOfSegments (l ++ [e]) = dirOfSegments l ++ (e ++ "/") := by
  unfold dirOfSegments
  rw [segsJoin_concat, String.append_assoc]

/-- The character data of a directory path ends with a slash. -/
theorem dirOfSegments_data_ends (segs : List String) :
    ∃ t, (dirOfSegments segs).data = t ++ ['/'] := by
  rcases List.eq_nil_or_concat segs with rfl | ⟨l, e, rfl⟩
  · exact ⟨[], rfl⟩
  · rw [List.concat_eq_append, dirOfSegments_concat]
    refine ⟨(dirOfSegments l).data ++ e.data, ?_⟩
    rw [String.data_append, String.data_append]
    rw [show ("/" : String).data = ['/'] from rfl, List.append_assoc]

/-- Dropping after the last slash of a slash-terminated block followed by
slash-free characters recovers the block. -/
theorem dropAfterLastSlashL_append (t n : List Char) (hn : ∀ c ∈ n, c ≠ '/') :
    dropAfterLastSlashL ((t ++ ['/']) ++ n) = t ++ ['/'] := by
  unfold dropAfterLastSlashL
  rw [List.reverse_append, List.reverse_append]
  have h1 : List.dropWhile (fun c => c != '/') (n.reverse ++ (['/'].reverse ++ t.reverse)) =
      List.dropWhile (fun c => c != '/') (['/'].reverse ++ t.reverse) := by
    rw [List.dropWhile_append]
    have : List.dropWhile (fun c => c != '/') n.reverse = [] := by
      rw [List.dropWhile_eq_nil_iff]
      intro x hx
      simp
      exact hn x (List.mem_reverse.mp hx)
    rw [this]
    simp
  rw [h1]
  show (List.dropWhile (fun c => c != '/') ('/' :: t.reverse)).reverse = t ++ ['/']
  rw [List.dropWhile_cons]
  simp

/-- The JS parent computation on a directory path formed from slash-free
segments drops the last segment. -/
theorem parent_of_dir (l : List String) (e : String) (he : ∀ c ∈ e.data, c ≠ '/') :
    takeThroughLastSlashBeforeEnd (dirOfSegments (l ++ [e])) = dirOfSegments l := by
  unfold takeThroughLastSlashBeforeEnd
  rw [dirOfSegments_concat]
  obtain ⟨t, ht⟩ := dirOfSegments_data_ends l
  have hdata : (dirOfSegments l ++ (e ++ "/")).data =
      ((dirOfSegments l).data ++ e.data) ++ ['/'] := by
    rw [String.data_append, String.data_append]
    rw [show ("/" : String).data = ['/'] from rfl, List.append_assoc]
  rw [hdata, List.dropLast_concat]
  have : (dirOfSegments l).data ++ e.data = (t ++ ['/']) ++ e.data := by rw [ht]
  rw [this, dropAfterLastSlashL_append t e.data he, ← ht]

/-- The JS parent computation on a file path under a directory of slash-free
segments recovers the directory. -/
theorem parent_of_file (segs : List String) (name : String)
    (hname : ∀ c ∈ name.data, c ≠ '/') :
    takeThroughLastSlash (dirOfSegments segs ++ name) = dirOfSegments segs := by
  unfold takeThroughLastSlash
  rw [String.data_append]
  obtain ⟨t, ht⟩ := dirOfSegments_data_ends segs
  rw [ht, dropAfterLastSlashL_append t name.data hname, ← ht]

/-- A directory path with at least one segment is not the root. -/
theorem dirOfSegments_concat_ne_root (l : List String) (e : String) :
    dirOfSegments (l ++ [e]) ≠ "/" := by
  intro hEq
  obtain ⟨t, ht⟩ := dirOfSegments_data_ends l
  have hlen : (dirOfSegments (l ++ [e])).data.length =
      (dirOfSegments l).data.length + (e.data.length + 1) := by
    rw [dirOfSegments_concat, String.data_append, String.data_append]
    rw [show ("/" : String).data = ['/'] from rfl]
    simp
  have hl1 : (dirOfSegments l).data.length = t.length + 1 := by
    rw [ht]
    simp
  have hroot : (dirOfSegments (l ++ [e])).data.length = 1 := by
    rw [hEq]
    rfl
  omega

/-- A file path under a directory is not the root. -/
theorem filePath_ne_root (segs : List String) (name : String) (hname : name ≠ "") :
    dirOfSegments segs ++ name ≠ "/" := by
  intro hEq
  obtain ⟨t, ht⟩ := dirOfSegments_data_ends segs
  have hnd : name.data.length ≠ 0 := by
    intro h0
    have h1 : name.data = [] := List.length_eq_zero.mp h0
    exact hname (String.ext_iff.mpr (by rw [h1]))
  have hlen : (dirOfSegments segs ++ name).data.length =
      (t.length + 1) + name.data.length := by
    rw [String.data_append, ht]
    simp
    omega
  have hroot : (dirOfSegments segs ++ name).data.length = 1 := by
    rw [hEq]
    rfl
  omega

/-- Every directory path contains a slash. -/
theorem dirOfSegments_includes_slash (segs : List String) :
    jsIncludesChar (dirOfSegments segs) '/' = true := by
  obtain ⟨t, ht⟩ := dirOfSegments_data_ends segs
  unfold jsIncludesChar
  rw [ht]
  simp

/-- Every file path under a directory contains a slash. -/
theorem filePath_includes_slash (segs : List String) (name : String) :
    jsIncludesChar (dirOfSegments segs ++ name) '/' = true := by
  obtain ⟨t, ht⟩ := dirOfSegments_data_ends segs
  unfold jsIncludesChar
  rw [String.data_append, ht]
  simp

/-- A file path under a directory does not end with a slash when the name is
non-empty and slash-free. -/
theorem filePath_endsWith_slash_false (segs : List String) (name : String)
    (hname : name ≠ "") (hns : ∀ c ∈ name.data, c ≠ '/') :
    jsEndsWith (dirOfSegments segs ++ name) "/" = false := by
  cases hb : jsEndsWith (dirOfSegments segs ++ name) "/" with
  | false => rfl
  | true =>
    exfalso
    unfold jsEndsWith at hb
    rw [List.isSuffixOf_iff_suffix] at hb
    obtain ⟨u, hu⟩ := hb
    have hnd : name.data ≠ [] := by
      intro h0
      exact hname (String.ext_iff.mpr (by rw [h0]))
    have hlast : (dirOfSegments segs ++ name).data.getLast? = name.data.getLast? := by
      rw [String.data_append, List.getLast?_append]
      rcases hgl : name.data.getLast? with _ | c
      · exact absurd (List.getLast?_eq_none_iff.mp hgl) hnd
      · rfl
    have hlast2 : (dirOfSegments segs ++ name).data.getLast? = some '/' := by
      rw [← hu, show ("/" : String).data = ['/'] from rfl]
      exact List.getLast?_concat u
    rw [hlast] at hlast2
    exact hns '/' (List.mem_of_mem_getLast? hlast2) rfl

/-- Each segment contributes at least one character to the directory path. -/
theorem length_le_jsLen_dirOfSegments (segs : List String) :
    segs.length ≤ jsLen (dirOfSegments segs) := by
  induction segs with
  | nil => simp [dirOfSegments, segsJoin, jsLen]
  | cons x xs ih =>
    have h1 : dirOfSegments (x :: xs) = "/" ++ (x ++ "/" ++ segsJoin xs) := rfl
    have h2 : dirOfSegments xs = "/" ++ segsJoin xs := rfl
    rw [h1, jsLen_append, jsLen_append, jsLen_append]
    rw [h2, jsLen_append] at ih
    have hone : jsLen "/" = 1 := rfl
    simp only [List.length_cons]
    omega
/-- Walking the ancestor chain of a directory path visits the directory of
every prefix of its segment list, given enough fuel. -/
theorem ancestorWalk_dirOfSegments_mem :
    ∀ (segs : List String), segsWf segs →
    ∀ fuel, segs.length ≤ fuel →
    ∀ i, i ≤ segs.length →
    dirOfSegments (segs.take i) ∈ ancestorWalk fuel (dirOfSegments segs) := by
  intro segs
  induction segs using List.reverseRecOn with
  | nil =>
    intro _ fuel _ i hi
    have hi0 : i = 0 := Nat.le_zero.mp hi
    subst hi0
    cases fuel with
    | zero => simp [ancestorWalk]
    | succ f => simp [ancestorWalk, dirOfSegments, segsJoin]
  | append_singleton l e ih =>
    intro hwf fuel hfuel i hi
    have hlen : (l ++ [e]).length = l.length + 1 := by simp
    obtain ⟨f, rfl⟩ : ∃ f, fuel = f + 1 := by
      refine ⟨fuel - 1, ?_⟩
      omega
    have hne : dirOfSegments (l ++ [e]) ≠ "/" := dirOfSegments_concat_ne_root l e
    have hstep : ancestorWalk (f + 1) (dirOfSegments (l ++ [e])) =
        dirOfSegments (l ++ [e]) ::
          ancestorWalk f (takeThroughLastSlashBeforeEnd (dirOfSegments (l ++ [e]))) := by
      rw [ancestorWalk]
      rw [if_neg (by simp [hne])]
    have hparent : takeThroughLastSlashBeforeEnd (dirOfSegments (l ++ [e])) =
        dirOfSegments l :=
      parent_of_dir l e (hwf e (List.mem_append_right l (List.mem_singleton.mpr rfl)))
    rw [hstep, hparent]
    by_cases hi2 : i = l.length + 1
    · subst hi2
      have htake : (l ++ [e]).take (l.length + 1) = l ++ [e] := by
        rw [← hlen]
        exact List.take_length _
      rw [htake]
      exact List.mem_cons_self _ _
    · have hile : i ≤ l.length := by omega
      have htake : (l ++ [e]).take i = l.take i := List.take_append_of_le_length hile
      rw [htake]
      refine List.mem_cons_of_mem _ ?_
      refine ih (fun x hx => hwf x (List.mem_append_left _ hx)) f ?_ i hile
      omega
/-- Every claimed ancestor key is removed by an ancestor-chain invalidation
on its directory. -/
theorem not_mem_ppa_dir (c : DirCache) (mid : String) (segs : List String)
    (hwf : segsWf segs) (i : Nat) (hi : i ≤ segs.length) :
    (mid, dirOfSegments (segs.take i)) ∉
      DirCache.invalidatePathAndAncestors c mid (dirOfSegments segs) :=
  DirCache.not_mem_invalidatePathAndAncestors c mid _ _
    (ancestorWalk_dirOfSegments_mem segs hwf _ (length_le_jsLen_dirOfSegments segs) i hi)

/-- A cache whose keys are all directory sub paths holds no entry at a file
sub path. -/
theorem file_key_not_in_wf_cache {c : DirCache}
    (hwfc : ∀ e ∈ c, jsEndsWith e.2 "/" = true) (mid : String)
    (segs : List String) (name : String) (hn : name ≠ "")
    (hns : ∀ ch ∈ name.data, ch ≠ '/') :
    (mid, dirOfSegments segs ++ name) ∉ c := by
  intro hmem
  have h := hwfc _ hmem
  rw [filePath_endsWith_slash_false segs name hn hns] at h
  cases h

/-- A file sub path satisfies the non-root-and-contains-slash branch
condition of the mutations. -/
theorem file_branch_cond (segs : List String) (name : String) (hn : name ≠ "") :
    ((dirOfSegments segs ++ name) != "/" &&
      jsIncludesChar (dirOfSegments segs ++ name) '/') = true := by
  have h1 : dirOfSegments segs ++ name ≠ "/" := filePath_ne_root segs name hn
  simp [h1, filePath_includes_slash]

/-- A non-root directory sub path satisfies the same branch condition. -/
theorem dir_branch_cond (l : List String) (e : String) :
    (dirOfSegments (l ++ [e]) != "/" &&
      jsIncludesChar (dirOfSegments (l ++ [e])) '/') = true := by
  have h1 := dirOfSegments_concat_ne_root l e
  simp [h1, dirOfSegments_includes_slash]
/-- Normal form of the uploadFile cache effect at a file sub path. -/
theorem uploadInvalidate_file_eq (c : DirCache) (mid : String) (segs : List String)
    (name : String) (hn : name ≠ "") (hns : ∀ ch ∈ name.data, ch ≠ '/') :
    uploadInvalidate c mid (dirOfSegments segs ++ name) =
      DirCache.invalidatePathAndAncestors c mid (dirOfSegments segs) := by
  unfold uploadInvalidate
  rw [if_pos (file_branch_cond segs name hn)]
  rw [parent_of_file segs name hns]

/-- Normal form of the createDirectory cache effect at a non-root directory
sub path. -/
theorem createDirInvalidate_eq (c : DirCache) (mid : String) (l : List String)
    (e : String) (he : ∀ ch ∈ e.data, ch ≠ '/') :
    createDirInvalidate c mid (dirOfSegments (l ++ [e])) =
      DirCache.invalidatePathAndAncestors c mid (dirOfSegments l) := by
  unfold createDirInvalidate
  rw [if_pos (by simp [dirOfSegments_concat_ne_root l e])]
  rw [parent_of_dir l e he]

/-- Normal form of the removeItem cache effect at a file sub path. -/
theorem removeInvalidate_file_eq (c : DirCache) (mid : String) (segs : List String)
    (name : String) (hn : name ≠ "") (hns : ∀ ch ∈ name.data, ch ≠ '/') :
    removeInvalidate c mid (dirOfSegments segs ++ name) false =
      DirCache.invalidatePathAndAncestors c mid (dirOfSegments segs) := by
  simp [removeInvalidate, file_branch_cond segs name hn, parent_of_file segs name hns]

/-- Normal form of the removeItem cache effect at a non-root directory. -/
theorem removeInvalidate_dir_eq (c : DirCache) (mid : String) (l : List String)
    (e : String) (he : ∀ ch ∈ e.data, ch ≠ '/') :
    removeInvalidate c mid (dirOfSegments (l ++ [e])) true =
      DirCache.invalidatePathAndAncestors
        (DirCache.invalidate c mid (dirOfSegments (l ++ [e]))) mid (dirOfSegments l) := by
  simp [removeInvalidate, dir_branch_cond l e, parent_of_dir l e he]

/-- Normal form of the removeItem cache effect at the mount root. -/
theorem removeInvalidate_root_eq (c : DirCache) (mid : String) :
    removeInvalidate c mid (dirOfSegments []) true =
      DirCache.invalidate c mid (dirOfSegments []) := by
  simp [removeInvalidate, dirOfSegments, segsJoin]

/-- Normal form of the renameItem cache effect for two file sub paths. -/
theorem renameInvalidate_files_eq (c : DirCache) (mid : String)
    (segs1 : List String) (n1 : String) (segs2 : List String) (n2 : String)
    (h1 : n1 ≠ "") (h1s : ∀ ch ∈ n1.data, ch ≠ '/')
    (h2 : n2 ≠ "") (h2s : ∀ ch ∈ n2.data, ch ≠ '/') :
    renameInvalidate c mid (dirOfSegments segs1 ++ n1) (dirOfSegments segs2 ++ n2)
        false false =
      DirCache.invalidatePathAndAncestors
        (DirCache.invalidatePathAndAncestors c mid (dirOfSegments segs1))
        mid (dirOfSegments segs2) := by
  simp [renameInvalidate, file_branch_cond segs1 n1 h1, file_branch_cond segs2 n2 h2,
    parent_of_file segs1 n1 h1s, parent_of_file segs2 n2 h2s]

/-- Normal form of the renameItem cache effect for two non-root
directories. -/
theorem renameInvalidate_dirs_eq (c : DirCache) (mid : String)
    (l1 : List String) (e1 : String) (l2 : List String) (e2 : String)
    (he1 : ∀ ch ∈ e1.data, ch ≠ '/') (he2 : ∀ ch ∈ e2.data, ch ≠ '/') :
    renameInvalidate c mid (dirOfSegments (l1 ++ [e1])) (dirOfSegments (l2 ++ [e2]))
        true true =
      DirCache.invalidatePathAndAncestors
        (DirCache.invalidatePathAndAncestors
          (DirCache.invalidate
            (DirCache.invalidate c mid (dirOfSegments (l1 ++ [e1])))
            mid (dirOfSegments (l2 ++ [e2])))
          mid (dirOfSegments l1))
        mid (dirOfSegments l2) := by
  simp [renameInvalidate, dir_branch_cond l1 e1, dir_branch_cond l2 e2,
    parent_of_dir l1 e1 he1, parent_of_dir l2 e2 he2]

/-- The empty segment list spells the root directory. -/
theorem dirOfSegments_nil : dirOfSegments [] = "/" := by
  simp [dirOfSegments, segsJoin]

/-- Normal form of the renameItem cache effect when the old directory is the
mount root. -/
theorem renameInvalidate_dirs_rootOld_eq (c : DirCache) (mid : String)
    (l2 : List String) (e2 : String) (he2 : ∀ ch ∈ e2.data, ch ≠ '/') :
    renameInvalidate c mid (dirOfSegments []) (dirOfSegments (l2 ++ [e2])) true true =
      DirCache.invalidatePathAndAncestors
        (DirCache.invalidate
          (DirCache.invalidate c mid (dirOfSegments []))
          mid (dirOfSegments (l2 ++ [e2])))
        mid (dirOfSegments l2) := by
  simp only [dirOfSegments_nil]
  simp [renameInvalidate, dir_branch_cond l2 e2, parent_of_dir l2 e2 he2,
    dirOfSegments_nil]

/-- Normal form of the renameItem cache effect when the new directory is the
mount root. -/
theorem renameInvalidate_dirs_rootNew_eq (c : DirCache) (mid : String)
    (l1 : List String) (e1 : String) (he1 : ∀ ch ∈ e1.data, ch ≠ '/') :
    renameInvalidate c mid (dirOfSegments (l1 ++ [e1])) (dirOfSegments []) true true =
      DirCache.invalidatePathAndAncestors
        (DirCache.invalidate
          (DirCache.invalidate c mid (dirOfSegments (l1 ++ [e1])))
          mid (dirOfSegments []))
        mid (dirOfSegments l1) := by
  simp only [dirOfSegments_nil]
  simp [renameInvalidate, dir_branch_cond l1 e1, parent_of_dir l1 e1 he1,
    dirOfSegments_nil]

/-- Normal form of the renameItem cache effect when both directories are the
mount root. -/
theorem renameInvalidate_dirs_rootBoth_eq (c : DirCache) (mid : String) :
    renameInvalidate c mid (dirOfSegments []) (dirOfSegments []) true true =
      DirCache.invalidate (DirCache.invalidate c mid (dirOfSegments []))
        mid (dirOfSegments []) := by
  simp only [dirOfSegments_nil]
  simp [renameInvalidate]

/-- Normal form of the updateFile cache effect at a file sub path with a
positive cache TTL. -/
theorem updateInvalidate_eq (c : DirCache) (mid : String) (segs : List String)
    (name : String) (ttl : Int) (hn : name ≠ "") (hns : ∀ ch ∈ name.data, ch ≠ '/')
    (h0 : 0 < ttl) :
    updateInvalidate c mid (dirOfSegments segs ++ name) ttl =
      DirCache.invalidatePathAndAncestors c mid (dirOfSegments segs) := by
  unfold updateInvalidate
  rw [if_pos h0]
  rw [if_pos (file_branch_cond segs name hn)]
  rw [parent_of_file segs name hns]
/-- C3 amended: after a successful mutation with sub path s under mount m,
the cache entries at s and at every ancestor directory of s are absent for
uploadFile, removeItem and renameItem; for updateFile the same holds when the
mount has a positive cache_ttl (with cache_ttl = 0 nothing is invalidated);
for createDirectory only the proper ancestors (the parent chain) are
guaranteed absent — the entry at the created directory itself may survive.
Sub paths are presented through their slash-free segment lists, and the
hypothesis records that cache keys are directory sub paths. -/
theorem cache_invalidation_ancestors (c : DirCache) (mid : String)
    (hwfc : ∀ e ∈ c, jsEndsWith e.2 "/" = true) :
    (∀ (segs : List String) (name : String), segsWf segs → nameWf name →
      (∀ i ≤ segs.length,
        (mid, dirOfSegments (segs.take i)) ∉
          uploadInvalidate c mid (dirOfSegments segs ++ name)) ∧
      (mid, dirOfSegments segs ++ name) ∉
        uploadInvalidate c mid (dirOfSegments segs ++ name)) ∧
    (∀ (l : List String) (e : String), segsWf (l ++ [e]) →
      ∀ i ≤ l.length,
        (mid, dirOfSegments (l.take i)) ∉
          createDirInvalidate c mid (dirOfSegments (l ++ [e]))) ∧
    (∀ (segs : List String) (name : String), segsWf segs → nameWf name →
      (∀ i ≤ segs.length,
        (mid, dirOfSegments (segs.take i)) ∉
          removeInvalidate c mid (dirOfSegments segs ++ name) false) ∧
      (mid, dirOfSegments segs ++ name) ∉
        removeInvalidate c mid (dirOfSegments segs ++ name) false) ∧
    (∀ segs : List String, segsWf segs →
      ∀ i ≤ segs.length,
        (mid, dirOfSegments (segs.take i)) ∉
          removeInvalidate c mid (dirOfSegments segs) true) ∧
    (∀ (segs1 : List String) (n1 : String) (segs2 : List String) (n2 : String),
      segsWf segs1 → nameWf n1 → segsWf segs2 → nameWf n2 →
      (∀ i ≤ segs1.length,
        (mid, dirOfSegments (segs1.take i)) ∉ renameInvalidate c mid
          (dirOfSegments segs1 ++ n1) (dirOfSegments segs2 ++ n2) false false) ∧
      (∀ i ≤ segs2.length,
        (mid, dirOfSegments (segs2.take i)) ∉ renameInvalidate c mid
          (dirOfSegments segs1 ++ n1) (dirOfSegments segs2 ++ n2) false false) ∧
      (mid, dirOfSegments segs1 ++ n1) ∉ renameInvalidate c mid
        (dirOfSegments segs1 ++ n1) (dirOfSegments segs2 ++ n2) false false ∧
      (mid, dirOfSegments segs2 ++ n2) ∉ renameInvalidate c mid
        (dirOfSegments segs1 ++ n1) (dirOfSegments segs2 ++ n2) false false) ∧
    (∀ segs1 segs2 : List String, segsWf segs1 → segsWf segs2 →
      (∀ i ≤ segs1.length,
        (mid, dirOfSegments (segs1.take i)) ∉ renameInvalidate c mid
          (dirOfSegments segs1) (dirOfSegments segs2) true true) ∧
      (∀ i ≤ segs2.length,
        (mid, dirOfSegments (segs2.take i)) ∉ renameInvalidate c mid
          (dirOfSegments segs1) (dirOfSegments segs2) true true)) ∧
    (∀ (segs : List String) (name : String) (cacheTtl : Int),
      segsWf segs → nameWf name → 0 < cacheTtl →
      (∀ i ≤ segs.length,
        (mid, dirOfSegments (segs.take i)) ∉
          updateInvalidate c mid (dirOfSegments segs ++ name) cacheTtl) ∧
      (mid, dirOfSegments segs ++ name) ∉
        updateInvalidate c mid (dirOfSegments segs ++ name) cacheTtl) := by
  refine ⟨?_, ?_, ?_, ?_, ?_, ?_, ?_⟩
  · -- uploadFile
    intro segs name hseg hn
    rw [uploadInvalidate_file_eq c mid segs name hn.1 hn.2]
    refine ⟨fun i hi => not_mem_ppa_dir c mid segs hseg i hi, ?_⟩
    intro hmem
    exact file_key_not_in_wf_cache hwfc mid segs name hn.1 hn.2
      (DirCache.mem_invalidatePathAndAncestors_sub hmem)
  · -- createDirectory
    intro l e hwf i hi
    rw [createDirInvalidate_eq c mid l e
      (hwf e (List.mem_append_right l (List.mem_singleton.mpr rfl)))]
    exact not_mem_ppa_dir c mid l (fun x hx => hwf x (List.mem_append_left _ hx)) i hi
  · -- removeItem on a file
    intro segs name hseg hn
    rw [removeInvalidate_file_eq c mid segs name hn.1 hn.2]
    refine ⟨fun i hi => not_mem_ppa_dir c mid segs hseg i hi, ?_⟩
    intro hmem
    exact file_key_not_in_wf_cache hwfc mid segs name hn.1 hn.2
      (DirCache.mem_invalidatePathAndAncestors_sub hmem)
  · -- removeItem on a directory
    intro segs hseg i hi
    rcases List.eq_nil_or_concat segs with rfl | ⟨l, e, rfl⟩
    · have hi0 : i = 0 := Nat.le_zero.mp hi
      subst hi0
      rw [removeInvalidate_root_eq c mid]
      exact DirCache.not_mem_invalidate c mid (dirOfSegments [])
    · simp only [List.concat_eq_append] at hseg hi ⊢
      rw [removeInvalidate_dir_eq c mid l e
        (hseg e (List.mem_append_right l (List.mem_singleton.mpr rfl)))]
      by_cases hi2 : i = l.length + 1
      · subst hi2
        have htake : (l ++ [e]).take (l.length + 1) = l ++ [e] := by
          simp
        rw [htake]
        intro hmem
        exact DirCache.not_mem_invalidate c mid (dirOfSegments (l ++ [e]))
          (DirCache.mem_invalidatePathAndAncestors_sub hmem)
      · have hile : i ≤ l.length := by
          simp at hi
          omega
        rw [List.take_append_of_le_length hile]
        exact not_mem_ppa_dir _ mid l (fun x hx => hseg x (List.mem_append_left _ hx)) i hile
  · -- renameItem on files
    intro segs1 n1 segs2 n2 hs1 hn1 hs2 hn2
    rw [renameInvalidate_files_eq c mid segs1 n1 segs2 n2 hn1.1 hn1.2 hn2.1 hn2.2]
    refine ⟨?_, ?_, ?_, ?_⟩
    · intro i hi hmem
      exact not_mem_ppa_dir c mid segs1 hs1 i hi
        (DirCache.mem_invalidatePathAndAncestors_sub hmem)
    · intro i hi
      exact not_mem_ppa_dir _ mid segs2 hs2 i hi
    · intro hmem
      exact file_key_not_in_wf_cache hwfc mid segs1 n1 hn1.1 hn1.2
        (DirCache.mem_invalidatePathAndAncestors_sub
          (DirCache.mem_invalidatePathAndAncestors_sub hmem))
    · intro hmem
      exact file_key_not_in_wf_cache hwfc mid segs2 n2 hn2.1 hn2.2
        (DirCache.mem_invalidatePathAndAncestors_sub
          (DirCache.mem_invalidatePathAndAncestors_sub hmem))
  · -- renameItem on directories
    intro segs1 segs2 hs1 hs2
    rcases List.eq_nil_or_concat segs1 with rfl | ⟨l1, e1, rfl⟩ <;>
      rcases List.eq_nil_or_concat segs2 with rfl | ⟨l2, e2, rfl⟩
    · rw [renameInvalidate_dirs_rootBoth_eq c mid]
      constructor
      · intro i hi hmem
        have hi0 : i = 0 := Nat.le_zero.mp hi
        subst hi0
        exact DirCache.not_mem_invalidate _ mid (dirOfSegments [])
          ((List.mem_filter.mp hmem).1)
      · intro i hi
        have hi0 : i = 0 := Nat.le_zero.mp hi
        subst hi0
        exact DirCache.not_mem_invalidate _ mid (dirOfSegments [])
    · simp only [List.concat_eq_append] at hs2 ⊢
      rw [renameInvalidate_dirs_rootOld_eq c mid l2 e2
        (hs2 e2 (List.mem_append_right l2 (List.mem_singleton.mpr rfl)))]
      constructor
      · intro i hi hmem
        have hi0 : i = 0 := Nat.le_zero.mp hi
        subst hi0
        exact DirCache.not_mem_invalidate c mid (dirOfSegments [])
          ((List.mem_filter.mp
            (DirCache.mem_invalidatePathAndAncestors_sub hmem)).1)
      · intro i hi
        by_cases hi2 : i = l2.length + 1
        · subst hi2
          have htake : (l2 ++ [e2]).take (l2.length + 1) = l2 ++ [e2] := by
            simp
          rw [htake]
          intro hmem
          exact DirCache.not_mem_invalidate _ mid (dirOfSegments (l2 ++ [e2]))
            (DirCache.mem_invalidatePathAndAncestors_sub hmem)
        · have hile : i ≤ l2.length := by
            simp at hi
            omega
          rw [List.take_append_of_le_length hile]
          exact not_mem_ppa_dir _ mid l2
            (fun x hx => hs2 x (List.mem_append_left _ hx)) i hile
    · simp only [List.concat_eq_append] at hs1 ⊢
      rw [renameInvalidate_dirs_rootNew_eq c mid l1 e1
        (hs1 e1 (List.mem_append_right l1 (List.mem_singleton.mpr rfl)))]
      constructor
      · intro i hi
        by_cases hi2 : i = l1.length + 1
        · subst hi2
          have htake : (l1 ++ [e1]).take (l1.length + 1) = l1 ++ [e1] := by
            simp
          rw [htake]
          intro hmem
          exact DirCache.not_mem_invalidate c mid (dirOfSegments (l1 ++ [e1]))
            ((List.mem_filter.mp
              (DirCache.mem_invalidatePathAndAncestors_sub hmem)).1)
        · have hile : i ≤ l1.length := by
            simp at hi
            omega
          rw [List.take_append_of_le_length hile]
          exact not_mem_ppa_dir _ mid l1
            (fun x hx => hs1 x (List.mem_append_left _ hx)) i hile
      · intro i hi hmem
        have hi0 : i = 0 := Nat.le_zero.mp hi
        subst hi0
        exact DirCache.not_mem_invalidate _ mid (dirOfSegments [])
          (DirCache.mem_invalidatePathAndAncestors_sub hmem)
    · simp only [List.concat_eq_append] at hs1 hs2 ⊢
      rw [renameInvalidate_dirs_eq c mid l1 e1 l2 e2
        (hs1 e1 (List.mem_append_right l1 (List.mem_singleton.mpr rfl)))
        (hs2 e2 (List.mem_append_right l2 (List.mem_singleton.mpr rfl)))]
      constructor
      · intro i hi
        by_cases hi2 : i = l1.length + 1
        · subst hi2
          have htake : (l1 ++ [e1]).take (l1.length + 1) = l1 ++ [e1] := by
            simp
          rw [htake]
          intro hmem
          exact DirCache.not_mem_invalidate _ mid (dirOfSegments (l1 ++ [e1]))
            ((List.mem_filter.mp
              (DirCache.mem_invalidatePathAndAncestors_sub
                (DirCache.mem_invalidatePathAndAncestors_sub hmem))).1)
        · have hile : i ≤ l1.length := by
            simp at hi
            omega
          rw [List.take_append_of_le_length hile]
          intro hmem
          exact not_mem_ppa_dir _ mid l1
            (fun x hx => hs1 x (List.mem_append_left _ hx)) i hile
            (DirCache.mem_invalidatePathAndAncestors_sub hmem)
      · intro i hi
        by_cases hi2 : i = l2.length + 1
        · subst hi2
          have htake : (l2 ++ [e2]).take (l2.length + 1) = l2 ++ [e2] := by
            simp
          rw [htake]
          intro hmem
          exact DirCache.not_mem_invalidate _ mid (dirOfSegments (l2 ++ [e2]))
            (DirCache.mem_invalidatePathAndAncestors_sub
              (DirCache.mem_invalidatePathAndAncestors_sub hmem))
        · have hile : i ≤ l2.length := by
            simp at hi
            omega
          rw [List.take_append_of_le_length hile]
          exact not_mem_ppa_dir _ mid l2
            (fun x hx => hs2 x (List.mem_append_left _ hx)) i hile
  · -- updateFile with positive TTL
    intro segs name cacheTtl hseg hn h0
    rw [updateInvalidate_eq c mid segs name cacheTtl hn.1 hn.2 h0]
    refine ⟨fun i hi => not_mem_ppa_dir c mid segs hseg i hi, ?_⟩
    intro hmem
    exact file_key_not_in_wf_cache hwfc mid segs name hn.1 hn.2
      (DirCache.mem_invalidatePathAndAncestors_sub hmem)
/-- Witness for the amended C3 at a concrete cache: uploading /a/x.txt clears
the root and /a/ entries, and creating /a/b/ clears the root entry. -/
theorem cache_invalidation_ancestors_witness :
    (("m1", dirOfSegments []) ∉
      uploadInvalidate [("m1", "/"), ("m1", "/a/")] "m1" (dirOfSegments ["a"] ++ "x.txt")) ∧
    (("m1", dirOfSegments ["a"]) ∉
      uploadInvalidate [("m1", "/"), ("m1", "/a/")] "m1" (dirOfSegments ["a"] ++ "x.txt")) ∧
    (("m1", dirOfSegments []) ∉
      createDirInvalidate [("m1", "/"), ("m1", "/a/")] "m1"
        (dirOfSegments (["a"] ++ ["b"]))) := by
  have h := cache_invalidation_ancestors [("m1", "/"), ("m1", "/a/")] "m1" (by decide)
  have hup := h.1 ["a"] "x.txt" (by unfold segsWf; decide) (by unfold nameWf; decide)
  exact ⟨hup.1 0 (by decide), hup.1 1 (by decide),
    h.2.1 ["a"] "b" (by unfold segsWf; decide) 0 (by decide)⟩
